import Mathlib

/-!
Verification of the modihost token-lending contract (src/src/modihost.cpp,
src/include/modihost.hpp) against its natural-language specification.

Shallow embedding conventions:
* EOSIO account names are modelled as natural numbers; the contract's fixed
  accounts (m_modihost = "aim" = the contract/self account, m_escrow,
  m_mainpool) are distinct constants, except that m_mainpool and
  m_mainpoolrwd are the same account, exactly as in the source.
* `asset` amounts (int64_t, 4 decimal places, one fixed symbol) are `Int`.
  Symbol-validity and memo-length checks always pass in the contract (one
  fixed symbol, short literal memos) and are omitted.
* C++ `double` percentage arithmetic is modelled in exact fraction
  arithmetic (`Frac`: an integer numerator/denominator pair, multiplied
  and divided componentwise with no rounding); the `double` → integer
  conversions of the source truncate toward zero, modelled by
  `Frac.trunc`.  C++ `int64_t` division (truncation toward zero) is
  `Int.tdiv`.
* Every `eosio::check` failure, and every table lookup whose missing row
  would be dereferenced, aborts the whole transaction with no state
  change; an action is therefore a function `... → Option Chain`, `none`
  meaning an abort (no partial state is observable on chain).
* `eosio::multi_index` tables are lists of rows; a secondary-index
  iteration is modelled as iteration over the list, whose order stands for
  the index order (none of the properties proved below depends on that
  order).  `available_primary_key` is `availablePK`.  Erasing the row
  found by a primary-key lookup removes exactly the rows with that key
  (primary keys are unique in a multi_index table).
* `now()` and the authorization system (`require_auth`, `is_account`) are
  external collaborators, passed in as an `Env`.
* `calldeferred` only schedules a deferred transaction (no immediate state
  change); it is modelled as a no-op.
-/

/-- Exact fraction arithmetic standing in for C++ `double`: a value
`num / den` kept unnormalized so that every operation is plain integer
arithmetic.  The contract only multiplies and divides doubles, so the
model is exact (no rounding ever happens before the final truncation). -/
structure Frac where
  num : Int
  den : Int
deriving DecidableEq

def Frac.ofInt (n : Int) : Frac := ⟨n, 1⟩

def Frac.mul (a b : Frac) : Frac := ⟨a.num * b.num, a.den * b.den⟩

def Frac.div (a b : Frac) : Frac := ⟨a.num * b.den, a.den * b.num⟩

instance : Mul Frac := ⟨Frac.mul⟩

instance : Div Frac := ⟨Frac.div⟩

/-- Conversion of a `double` value to an integer type truncates toward
zero, which is what `Int.tdiv` does for any signs. -/
def Frac.trunc (a : Frac) : Int := Int.tdiv a.num a.den

/-- The exact rational value of a `Frac`. -/
def Frac.toRat (a : Frac) : ℚ := (a.num : ℚ) / (a.den : ℚ)

/-- One pass of `token::sqroot`'s while loop, with fuel
(src/src/modihost.cpp lines 330-342).  The loop state is the pair
(`sqrt`, `temp`); the body sets `temp = sqrt; sqrt = (n/temp + temp)/2`,
and the loop runs while `sqrt != temp`.  `none` means the fuel was
exhausted with the loop still running. -/
def sqrootIter (n : Nat) : Nat → Nat → Nat → Option Nat
  | 0, s, t => if s = t then some s else none
  | fuel + 1, s, t =>
    if s = t then some s
    else sqrootIter n fuel ((n / s + s) / 2) s

/-- `token::sqroot` (src/src/modihost.cpp lines 330-342): `sqrt` starts at
`number/2`, `temp` at 0; on exit the result is rescaled by 100
(`return sqrt * 100`).  All amounts reaching it are non-negative, so the
int64_t arithmetic is modelled on `Nat`. -/
def sqroot (fuel : Nat) (number : Nat) : Option Nat :=
  (sqrootIter number fuel (number / 2) 0).map (fun r => r * 100)

/-- `modihostFees = 0.5` (percent), src/include/modihost.hpp line 233. -/
def modihostFees : Frac := ⟨5, 10⟩

/-- The fee computation of `token::reqservice` (src/src/modihost.cpp lines
903-904): `feeTokensDouble = (modihostFees/100) * (p_tokens.amount/10000)`
— note that `p_tokens.amount/10000` is C++ int64_t division — and
`feeTokensAmount = feeTokensDouble * 10000`, truncated to an integer. -/
def feeTokensAmount (a : Int) : Int :=
  let feeTokensDouble : Frac := modihostFees / Frac.ofInt 100 * Frac.ofInt (Int.tdiv a 10000)
  (feeTokensDouble * Frac.ofInt 10000).trunc

/-- The contract/self account, `m_modihost = name("aim")`
(src/include/modihost.hpp line 235); the contract treats `get_self()` and
`m_modihost` as the same account. -/
def mModihost : Nat := 1

/-- `m_escrow = name("escrow.aim")` (src/include/modihost.hpp line 236). -/
def mEscrow : Nat := 2

/-- `m_mainpool = name("mainpool.aim")` (src/include/modihost.hpp line
238); `m_mainpoolrwd` (line 239) is the same account in the source. -/
def mMainpool : Nat := 3

/-- `colateralAmount = 1000000000` sub-units, the fixed minimum collateral
(src/include/modihost.hpp line 234). -/
def colateralAmount : Int := 1000000000

/-- External collaborators: the authorization system (`require_auth`
succeeds iff `auth` holds for the account, `is_account` is `isAccount`)
and the clock `now()` (`tNow`). -/
structure Env where
  auth : Nat → Bool
  isAccount : Nat → Bool
  tNow : Nat

/-- Row of the `pools` table (src/include/modihost.hpp lines 258-282). -/
structure Pool where
  ID : Nat
  poolName : Nat
  ownerAcnt : Nat
  colaterlAcnt : Nat
  rewardAcnt : Nat
  reward : Frac
  isPrivate : Bool
  ownerShare : Frac
  holderShare : Frac
  totalTokens : Int
  avlblTokens : Int
  colaterlAmnt : Int
  ownerAvlblReward : Int
  lockTime : Nat
  lockInSecs : Nat
  createdDate : Nat
  isActive : Bool
  arRestriction : List Nat
deriving DecidableEq

/-- Row of the `poolholders` table (src/include/modihost.hpp lines
284-299). -/
structure Holder where
  ID : Nat
  poolName : Nat
  holder : Nat
  tokens : Int
  remainingTokens : Int
  availableReward : Int
  lastUsedAt : Nat
  createdDate : Nat
  isActive : Bool
deriving DecidableEq

/-- Row of the `hotelfeereq` table, the Service Request record keyed by
TID (src/include/modihost.hpp lines 301-312). -/
structure HotelFeeReq where
  TID : Nat
  hotel : Nat
  isFeePaid : Nat
  isServiceProvided : Nat
  createdDate : Nat
  totalTokens : Int
  feesTokens : Int
  rewardTokens : Int
deriving DecidableEq

/-- Row of the `pooltokenreq` table, the Pool Draw Record
(src/include/modihost.hpp lines 314-329). -/
structure PoolTokenReq where
  ID : Nat
  TID : Nat
  hotel : Nat
  poolID : Nat
  pool : Nat
  totalTokens : Int
  rewardPerc : Frac
  rewardTokens : Int
  createdDate : Nat
  ownerRewardTokens : Int
deriving DecidableEq

/-- Row of the `holdertknreq` table, the Holder Draw Record
(src/include/modihost.hpp lines 331-344). -/
structure HolderTknReq where
  ID : Nat
  TID : Nat
  hotel : Nat
  pool : Nat
  holderID : Nat
  holder : Nat
  tokens : Int
  createdDate : Nat
  rewardTokens : Int
deriving DecidableEq

/-- Row of the `pooltknlock` table (src/include/modihost.hpp lines
346-355). -/
structure PoolTknLock where
  ID : Nat
  poolID : Nat
  poolName : Nat
  tokens : Int
  lockedUntil : Nat
  createdDate : Nat
deriving DecidableEq

/-- Row of the `hldrtknlock` table (src/include/modihost.hpp lines
357-368).  `updhldrtkns` never assigns `poolID`, so it stays 0. -/
structure HldrTknLock where
  ID : Nat
  poolID : Nat
  poolName : Nat
  holderID : Nat
  holder : Nat
  tokens : Int
  lockedUntil : Nat
  createdDate : Nat
deriving DecidableEq

/-- Row of the `stakes` table, the Collateral Stake keyed by the
collateral account (src/include/modihost.hpp lines 370-376). -/
structure Stake where
  colateral : Nat
  tokens : Int
  createdDate : Nat
deriving DecidableEq

/-- The whole persistent state of the contract: the token balance rows
(`accounts` tables; `none` = the account has no balance row for the
symbol) and every multi_index table of the contract. -/
structure Chain where
  balances : Nat → Option Int
  pools : List Pool
  holders : List Holder
  hotelFeeReqs : List HotelFeeReq
  poolTokenReqs : List PoolTokenReq
  holderTknReqs : List HolderTknReq
  poolTknLocks : List PoolTknLock
  hldrTknLocks : List HldrTknLock
  stakes : List Stake

/-- `eosio::check(cond, msg)`: aborts the whole transaction when the
condition fails.  In the `Option` model a failed check is `none`. -/
def eosCheck (p : Prop) [Decidable p] : Option Unit :=
  if p then some () else none

/-- Overwrite one balance row. -/
def setBal (s : Chain) (acct : Nat) (v : Int) : Chain :=
  { s with balances := fun x => if x = acct then some v else s.balances x }

/-- `token::sub_balance` (src/src/modihost.cpp lines 127-145): requires a
balance row, requires `balance >= value`, and additionally — if the owner
has a collateral stake — requires `balance >= stake + value`. -/
def sub_balance (s : Chain) (owner : Nat) (value : Int) : Option Chain :=
  (s.balances owner).bind fun b =>
  (eosCheck (value ≤ b)).bind fun _ =>
  (match s.stakes.find? (fun st : Stake => st.colateral == owner) with
    | some st => eosCheck (st.tokens + value ≤ b)
    | none => some ()).bind fun _ =>
  some (setBal s owner (b - value))

/-- `token::add_balance` (src/src/modihost.cpp lines 147-160): creates the
balance row if missing, otherwise adds. -/
def add_balance (s : Chain) (owner : Nat) (value : Int) : Chain :=
  match s.balances owner with
  | none => setBal s owner value
  | some b => setBal s owner (b + value)

/-- `token::sub_balance2` (src/src/modihost.cpp lines 162-172): like
`sub_balance` but without the stake check. -/
def sub_balance2 (s : Chain) (owner : Nat) (value : Int) : Option Chain :=
  (s.balances owner).bind fun b =>
  (eosCheck (value ≤ b)).bind fun _ =>
  some (setBal s owner (b - value))

/-- `token::add_balance2` (src/src/modihost.cpp lines 174-187): same
update as `add_balance` (only the RAM payer differs). -/
def add_balance2 (s : Chain) (owner : Nat) (value : Int) : Chain :=
  add_balance s owner value

/-- `token::transfer` (src/src/modihost.cpp lines 77-101): rejects
self-transfer, requires `from`'s authorization, requires `to` to exist,
requires a positive quantity (symbol and memo checks always pass here),
then debits and credits. -/
def transfer (env : Env) (s : Chain) (frm toAcc : Nat) (quantity : Int) : Option Chain :=
  (eosCheck (frm ≠ toAcc)).bind fun _ =>
  (eosCheck (env.auth frm)).bind fun _ =>
  (eosCheck (env.isAccount toAcc)).bind fun _ =>
  (eosCheck (0 < quantity)).bind fun _ =>
  (sub_balance s frm quantity).bind fun s1 =>
  some (add_balance s1 toAcc quantity)

/-- `token::transfer2Esc` (src/src/modihost.cpp lines 104-125): the
privileged internal transfer — same checks as `transfer` except that no
authorization of `from` is required, and no stake check is applied. -/
def transfer2Esc (env : Env) (s : Chain) (frm toAcc : Nat) (quantity : Int) : Option Chain :=
  (eosCheck (frm ≠ toAcc)).bind fun _ =>
  (eosCheck (env.isAccount toAcc)).bind fun _ =>
  (eosCheck (0 < quantity)).bind fun _ =>
  (sub_balance2 s frm quantity).bind fun s1 =>
  some (add_balance2 s1 toAcc quantity)

/-- `available_primary_key` of a multi_index table: 0 when empty,
otherwise one more than the largest primary key. -/
def availablePK (ids : List Nat) : Nat :=
  match ids with
  | [] => 0
  | _ => ids.foldr max 0 + 1

/-- Entry of the pending-update batch `v` of `updhldrtkns`
(src/src/modihost.cpp lines 1127-1132). -/
structure HolderData where
  hid : Nat
  hldrTokensUsed : Int
deriving DecidableEq

/-- The scan loop of `token::updhldrtkns` (src/src/modihost.cpp lines
1140-1205) over the holder table (iterated through the `lastusedat`
index, represented by the list order).  Arguments `found` is
`hldrTokensFound`, `reqPK`/`lockPK` the next primary keys of the two
tables being appended to.  Returns the new Holder Draw Records, the new
holder locks, and the pending batch `v`. -/
def updhldrLoop (tid hotel pool : Nat) (p_reward p_holderPerc : Frac)
    (lockedUntil tNow : Nat) (A : Int) :
    Int → Nat → Nat → List Holder → List HolderTknReq × List HldrTknLock × List HolderData
  | _, _, _, [] => ([], [], [])
  | found, reqPK, lockPK, h :: rest =>
    if h.poolName = pool then
      if h.isActive = false then
        updhldrLoop tid hotel pool p_reward p_holderPerc lockedUntil tNow A found reqPK lockPK rest
      else if h.remainingTokens ≤ 0 then
        updhldrLoop tid hotel pool p_reward p_holderPerc lockedUntil tNow A found reqPK lockPK rest
      else
        let hldrTokensUsed : Int :=
          if A - found ≤ h.remainingTokens then A - found else h.remainingTokens
        let found2 := found + hldrTokensUsed
        let rewardTokensDouble : Frac :=
          p_reward / Frac.ofInt 100 * Frac.ofInt (Int.tdiv hldrTokensUsed 10000)
        let holderPercDouble : Frac := p_holderPerc / Frac.ofInt 100 * rewardTokensDouble
        let hldrRewardTokens : Int := (holderPercDouble * Frac.ofInt 10000).trunc
        let req : HolderTknReq :=
          ⟨reqPK, tid, hotel, pool, h.ID, h.holder, hldrTokensUsed, tNow, hldrRewardTokens⟩
        let lock : HldrTknLock :=
          ⟨lockPK, 0, h.poolName, h.ID, h.holder, hldrTokensUsed, lockedUntil, tNow⟩
        if found2 ≥ A then ([req], [lock], [⟨h.ID, hldrTokensUsed⟩])
        else
          let res := updhldrLoop tid hotel pool p_reward p_holderPerc lockedUntil tNow A
            found2 (reqPK + 1) (lockPK + 1) rest
          (req :: res.1, lock :: res.2.1, ⟨h.ID, hldrTokensUsed⟩ :: res.2.2)
    else
      updhldrLoop tid hotel pool p_reward p_holderPerc lockedUntil tNow A found reqPK lockPK rest

/-- The batch-application loop of `token::updhldrtkns`
(src/src/modihost.cpp lines 1208-1224): each touched holder's remaining
balance is decremented; `lastUsedAt` is refreshed only when the position
is fully drawn (remaining would not stay positive). -/
def applyHolderBatch (tNow : Nat) (holders : List Holder) (v : List HolderData) : List Holder :=
  v.foldl (fun hs i =>
    hs.map (fun h =>
      if h.ID = i.hid then
        if h.remainingTokens - i.hldrTokensUsed > 0 then
          { h with remainingTokens := h.remainingTokens - i.hldrTokensUsed }
        else
          { h with remainingTokens := h.remainingTokens - i.hldrTokensUsed, lastUsedAt := tNow }
      else h)) holders

/-- `token::updhldrtkns` (src/src/modihost.cpp lines 1117-1225): scan the
pool's holders, record Holder Draw Records and holder-level locks, then
apply the batch of remaining-balance decrements. -/
def updhldrtkns (env : Env) (s : Chain) (p_TID : Nat) (p_tokensRemaining : Int)
    (p_hotel p_pool : Nat) (p_reward p_holderPerc : Frac) (lockedUntil : Nat) : Chain :=
  let res := updhldrLoop p_TID p_hotel p_pool p_reward p_holderPerc lockedUntil env.tNow
    p_tokensRemaining 0 (availablePK (s.holderTknReqs.map (fun r => r.ID)))
    (availablePK (s.hldrTknLocks.map (fun r => r.ID))) s.holders
  { s with
    holderTknReqs := s.holderTknReqs ++ res.1,
    hldrTknLocks := s.hldrTknLocks ++ res.2.1,
    holders := applyHolderBatch env.tNow s.holders res.2.2 }

/-- The holders of a pool that `updhldrtkns` can draw from (active, with
positive remaining balance), and their collective remaining balance. -/
def eligibleRemaining (pool : Nat) (hs : List Holder) : Int :=
  ((hs.filter (fun h => h.poolName == pool && h.isActive && decide (0 < h.remainingTokens))).map
    (fun h => h.remainingTokens)).sum

/-- The holder-scan loop of `token::trminatepool` (src/src/modihost.cpp
lines 724-740): over the pool's holders (via the `poolname` index,
represented by the list), skip inactive positions, abort when an active
position has `remainingTokens != tokens`, and accumulate the active
positions' balances (`totHoldersBlnc`) and rewards (`totHoldersRwrd`). -/
def trmCheckLoop (pn : Nat) : List Holder → Int → Int → Option (Int × Int)
  | [], totB, totR => some (totB, totR)
  | h :: rest, totB, totR =>
    if h.poolName = pn then
      if h.isActive ≠ true then trmCheckLoop pn rest totB totR
      else if h.remainingTokens = h.tokens then
        trmCheckLoop pn rest (totB + h.tokens) (totR + h.availableReward)
      else none
    else trmCheckLoop pn rest totB totR

/-- The payout loop of `token::trminatepool` (src/src/modihost.cpp lines
752-779): transfer each active holder's balance (pool → holder) and
reward (reward account → holder) when positive, then zero the position's
`tokens`, `remainingTokens` and `availableReward` (the source comment
says "inactivate holder" but `isActive` is not written here). -/
def trmPayLoop (env : Env) (pn rewardAcnt : Nat) : List Holder → Chain → Option Chain
  | [], s => some s
  | h :: rest, s =>
    if h.isActive ≠ true then trmPayLoop env pn rewardAcnt rest s
    else if h.poolName = pn then
      (if 0 < h.tokens then transfer2Esc env s pn h.holder h.tokens else some s).bind fun s1 =>
      (if 0 < h.availableReward then
          transfer2Esc env s1 rewardAcnt h.holder h.availableReward
        else some s1).bind fun s2 =>
      trmPayLoop env pn rewardAcnt rest
        { s2 with holders := s2.holders.map (fun x =>
            if x.ID = h.ID then
              { x with availableReward := 0, tokens := 0, remainingTokens := 0 }
            else x) }
    else trmPayLoop env pn rewardAcnt rest s

/-- `token::trminatepool` (src/src/modihost.cpp lines 688-804): find the
pool by name, require it active and the owner's signature; if the pool
account has no token balance row, deactivate it with zero totals
directly; otherwise run the outstanding-draw check, the balance checks,
pay out every active holder, pay the owner's reward, deactivate the pool
with `totalTokens` set to its final on-chain balance, and release the
collateral stake. -/
def trminatepool (env : Env) (s : Chain) (pn : Nat) : Option Chain :=
  (s.pools.find? (fun p => p.poolName == pn)).bind fun itr =>
  (eosCheck (itr.isActive = true)).bind fun _ =>
  (eosCheck (env.auth itr.ownerAcnt)).bind fun _ =>
  match s.balances pn with
  | none =>
    some { s with pools := s.pools.map (fun p =>
      if p.ID = itr.ID then
        { p with isActive := false, ownerAvlblReward := 0, totalTokens := 0, avlblTokens := 0 }
      else p) }
  | some poolBal =>
    (trmCheckLoop pn s.holders 0 0).bind fun tots =>
    (eosCheck (0 < tots.1 → tots.1 ≤ poolBal)).bind fun _ =>
    (if 0 < tots.2 + itr.ownerAvlblReward then
        (s.balances itr.rewardAcnt).bind fun rb =>
        eosCheck (tots.2 + itr.ownerAvlblReward ≤ rb)
      else some ()).bind fun _ =>
    (trmPayLoop env pn itr.rewardAcnt s.holders s).bind fun s1 =>
    (if 0 < itr.ownerAvlblReward then
        transfer2Esc env s1 itr.rewardAcnt itr.ownerAcnt itr.ownerAvlblReward
      else some s1).bind fun s2 =>
    (s2.balances pn).bind fun blncPool =>
    let s3 := { s2 with pools := s2.pools.map (fun p : Pool =>
      if p.ID = itr.ID then
        { p with isActive := false, ownerAvlblReward := 0,
                 totalTokens := blncPool, avlblTokens := 0 }
      else p) }
    some { s3 with stakes := s3.stakes.filter (fun st => st.colateral != itr.colaterlAcnt) }

/-- `token::addpool` (src/src/modihost.cpp lines 385-459): existence
checks for the four participant accounts, main-pool-initialized check,
duplicate-name check, collateral-account-in-use check, minimum-collateral
check, collateral-balance checks, lock-duration computation from
`sqroot`, then the new pool row and its collateral stake are inserted
(the stake-already-staked check sits between the two inserts).  The
action performs no `require_auth` at all. -/
def addpool (env : Env) (fuel : Nat) (s : Chain)
    (poolName ownerAcnt colaterlAcnt rewardAcnt : Nat) (reward : Frac) (isPrivate : Bool)
    (ownerShare holderShare : Frac) (pCollateral : Int) (arRestriction : List Nat) :
    Option Chain :=
  (eosCheck (env.isAccount poolName)).bind fun _ =>
  (eosCheck (env.isAccount ownerAcnt)).bind fun _ =>
  (eosCheck (env.isAccount colaterlAcnt)).bind fun _ =>
  (eosCheck (env.isAccount rewardAcnt)).bind fun _ =>
  (eosCheck (s.pools.find? (fun p => p.ID == 0)).isSome).bind fun _ =>
  (eosCheck (!(s.pools.find? (fun p => p.poolName == poolName)).isSome)).bind fun _ =>
  (eosCheck (s.pools.all (fun p => p.colaterlAcnt != colaterlAcnt))).bind fun _ =>
  (eosCheck (colateralAmount ≤ pCollateral)).bind fun _ =>
  (s.balances colaterlAcnt).bind fun blnc =>
  (eosCheck (pCollateral ≤ blnc)).bind fun _ =>
  (sqroot fuel pCollateral.toNat).bind fun caRoot =>
  let lockInSecs := 57000 * 100000 / caRoot
  let newPool : Pool :=
    { ID := availablePK (s.pools.map (fun p => p.ID)), poolName := poolName,
      ownerAcnt := ownerAcnt, colaterlAcnt := colaterlAcnt, rewardAcnt := rewardAcnt,
      reward := reward, isPrivate := isPrivate, ownerShare := ownerShare,
      holderShare := holderShare, totalTokens := 0, avlblTokens := 0,
      colaterlAmnt := pCollateral, ownerAvlblReward := 0, lockTime := env.tNow,
      lockInSecs := lockInSecs, createdDate := env.tNow, isActive := true,
      arRestriction := arRestriction }
  let s1 := { s with pools := s.pools ++ [newPool] }
  (eosCheck (!(s1.stakes.find? (fun st => st.colateral == colaterlAcnt)).isSome)).bind fun _ =>
  some { s1 with stakes := s1.stakes ++ [⟨colaterlAcnt, pCollateral, env.tNow⟩] }

/-- The explicit preconditions of `addpool`, as the claim enumerates
them: the four participant accounts exist, the main pool (id 0) is
initialized, the pool name is not a duplicate, the collateral account is
not used by any pool and not already staked, the collateral meets the
fixed minimum, and the collateral account's balance row exists with at
least the declared collateral. -/
def addpoolPre (env : Env) (s : Chain)
    (poolName ownerAcnt colaterlAcnt rewardAcnt : Nat) (pCollateral : Int) : Prop :=
  env.isAccount poolName = true ∧ env.isAccount ownerAcnt = true ∧
  env.isAccount colaterlAcnt = true ∧ env.isAccount rewardAcnt = true ∧
  (∃ p ∈ s.pools, p.ID = 0) ∧
  (∀ p ∈ s.pools, p.poolName ≠ poolName) ∧
  (∀ p ∈ s.pools, p.colaterlAcnt ≠ colaterlAcnt) ∧
  colateralAmount ≤ pCollateral ∧
  (∃ b, s.balances colaterlAcnt = some b ∧ pCollateral ≤ b) ∧
  (∀ st ∈ s.stakes, st.colateral ≠ colaterlAcnt)

/-- The pool-scan loop of `token::reqservice` (src/src/modihost.cpp lines
922-1055), iterated over the `reward` index (ascending reward order,
represented by the list order).  A pool is skipped when its account has
no balance row, it is the main pool (id 0), it is inactive, its
collateral account's balance fell below the registered collateral, it
has no available tokens, its balance is non-positive, or the requester
is on its restriction list; but a missing balance row of a pool's
collateral account aborts the whole call (`get_balance` asserts).  For
each selected pool  `min(remaining, available)` is drawn pool → escrow, a
Pool Draw Record and a pool-level lock are recorded, `updhldrtkns` is
invoked, and the scan stops once the full amount is sourced
(`calldeferred` only schedules the unlock sweep).  Returns the state,
`tokensFound`, `tokensRemaining` and the accumulated reward total. -/
def allocLoop (env : Env) (tid hotel : Nat) (p_tokens : Int) :
    List Pool → Chain → Int → Int → Int → Option (Chain × Int × Int × Int)
  | [], s, found, remaining, totReward => some (s, found, remaining, totReward)
  | item :: rest, s, found, remaining, totReward =>
    match s.balances item.poolName with
    | none => allocLoop env tid hotel p_tokens rest s found remaining totReward
    | some pool =>
      (s.balances item.colaterlAcnt).bind fun currPoolCA =>
        if item.ID = 0 then allocLoop env tid hotel p_tokens rest s found remaining totReward
        else if item.isActive = false then
          allocLoop env tid hotel p_tokens rest s found remaining totReward
        else if currPoolCA < item.colaterlAmnt then
          allocLoop env tid hotel p_tokens rest s found remaining totReward
        else if item.avlblTokens ≤ 0 then
          allocLoop env tid hotel p_tokens rest s found remaining totReward
        else if pool ≤ 0 then
          allocLoop env tid hotel p_tokens rest s found remaining totReward
        else if hotel ∈ item.arRestriction then
          allocLoop env tid hotel p_tokens rest s found remaining totReward
        else
          let poolTokensUsed : Int :=
            if remaining ≤ item.avlblTokens then remaining else item.avlblTokens
          let found2 := found + poolTokensUsed
          (eosCheck (poolTokensUsed ≤ pool)).bind fun _ =>
          (transfer2Esc env s item.poolName mEscrow poolTokensUsed).bind fun s1 =>
          let rewardTokensDouble : Frac :=
            item.reward / Frac.ofInt 100 * Frac.ofInt (Int.tdiv poolTokensUsed 10000)
          let rewardTokensAmount : Int := (rewardTokensDouble * Frac.ofInt 10000).trunc
          let poolPercDouble : Frac := item.ownerShare / Frac.ofInt 100 * rewardTokensDouble
          let poolRewardTokens : Int := (poolPercDouble * Frac.ofInt 10000).trunc
          let totReward2 := totReward + rewardTokensAmount
          let s2 := { s1 with poolTokenReqs := s1.poolTokenReqs ++
            [⟨availablePK (s1.poolTokenReqs.map (fun r => r.ID)), tid, hotel, item.ID,
              item.poolName, poolTokensUsed, item.reward, rewardTokensAmount, env.tNow,
              poolRewardTokens⟩] }
          let lockedUntil := env.tNow + item.lockInSecs
          let s3 := updhldrtkns env s2 tid poolTokensUsed hotel item.poolName item.reward
            item.holderShare lockedUntil
          let s4 := { s3 with pools := s3.pools.map (fun p : Pool =>
            if p.ID = item.ID then
              { p with lockTime := env.tNow + item.lockInSecs,
                       avlblTokens := p.avlblTokens - poolTokensUsed }
            else p) }
          let s5 := { s4 with poolTknLocks := s4.poolTknLocks ++
            [⟨availablePK (s4.poolTknLocks.map (fun r => r.ID)), item.ID, item.poolName,
              poolTokensUsed, lockedUntil, env.tNow⟩] }
          let remaining2 := p_tokens - found2
          if found2 ≥ p_tokens then some (s5, found2, remaining2, totReward2)
          else allocLoop env tid hotel p_tokens rest s5 found2 remaining2 totReward2

/-- `token::sndfee2escrw` (src/src/modihost.cpp lines 1228-1254): find
the Service Request, require the requester's balance to cover fee plus
reward, move fee+reward requester → escrow, set `isFeePaid = 1`, require
the escrow balance to cover the sourced principal, and move the
principal escrow → operator.  The `isFeePaid` flag is never read. -/
def sndfee2escrw (env : Env) (s : Chain) (p_TID frm : Nat) : Option Chain :=
  (s.hotelFeeReqs.find? (fun r => r.TID == p_TID)).bind fun req =>
  let feeAndReward := req.feesTokens + req.rewardTokens
  (s.balances frm).bind fun hotelBlnc =>
  (eosCheck (feeAndReward ≤ hotelBlnc)).bind fun _ =>
  (transfer env s frm mEscrow feeAndReward).bind fun s1 =>
  let s2 := { s1 with hotelFeeReqs := s1.hotelFeeReqs.map (fun r : HotelFeeReq =>
    if r.TID = p_TID then { r with isFeePaid := 1 } else r) }
  (s2.balances mEscrow).bind fun escBlnc =>
  (eosCheck (req.totalTokens ≤ escBlnc)).bind fun _ =>
  transfer2Esc env s2 mEscrow mModihost req.totalTokens

/-- The per-pool payout loop of `token::servprvd2htl`
(src/src/modihost.cpp lines 1288-1309): for every Pool Draw Record of
this TID, require the escrow to cover reward + principal, move the
reward escrow → the pool's reward account and the principal escrow →
pool, and credit the pool owner's accrued reward. -/
def servPoolLoop (env : Env) (p_TID : Nat) : List PoolTokenReq → Chain → Option Chain
  | [], s => some s
  | r :: rest, s =>
    if r.TID = p_TID then
      (s.pools.find? (fun p => p.ID == r.poolID)).bind fun poolItr =>
      (s.balances mEscrow).bind fun escBlnc =>
      (eosCheck (r.rewardTokens + r.totalTokens ≤ escBlnc)).bind fun _ =>
      (transfer2Esc env s mEscrow poolItr.rewardAcnt r.rewardTokens).bind fun s1 =>
      (transfer2Esc env s1 mEscrow r.pool r.totalTokens).bind fun s2 =>
      servPoolLoop env p_TID rest
        { s2 with pools := s2.pools.map (fun p : Pool =>
            if p.ID = r.poolID then
              { p with ownerAvlblReward := p.ownerAvlblReward + r.ownerRewardTokens }
            else p) }
    else servPoolLoop env p_TID rest s

/-- The per-holder reward-credit loop of `token::servprvd2htl`
(src/src/modihost.cpp lines 1312-1331): every Holder Draw Record of this
TID credits its holder's accrued reward (no token movement). -/
def servHldrApply (p_TID : Nat) (reqs : List HolderTknReq) (holders0 : List Holder) :
    List Holder :=
  reqs.foldl (fun hs r =>
    if r.TID = p_TID then
      hs.map (fun h => if h.ID = r.holderID then
        { h with availableReward := h.availableReward + r.rewardTokens } else h)
    else hs) holders0

/-- `token::servprvd2htl` (src/src/modihost.cpp lines 1257-1332): find
the Service Request, require the operator's balance to cover the
principal, move it operator → escrow, set `isServiceProvided = 1`,
require the escrow to cover the fee, move the fee escrow → operator,
then run the pool and holder payout loops.  The `isServiceProvided` flag
is never read. -/
def servprvd2htl (env : Env) (s : Chain) (p_TID : Nat) : Option Chain :=
  (s.hotelFeeReqs.find? (fun r => r.TID == p_TID)).bind fun req =>
  (s.balances mModihost).bind fun modiBlnc =>
  (eosCheck (req.totalTokens ≤ modiBlnc)).bind fun _ =>
  (transfer2Esc env s mModihost mEscrow req.totalTokens).bind fun s1 =>
  let s2 := { s1 with hotelFeeReqs := s1.hotelFeeReqs.map (fun r : HotelFeeReq =>
    if r.TID = p_TID then { r with isServiceProvided := 1 } else r) }
  (s2.balances mEscrow).bind fun escBlnc =>
  (eosCheck (req.feesTokens ≤ escBlnc)).bind fun _ =>
  (transfer2Esc env s2 mEscrow mModihost req.feesTokens).bind fun s3 =>
  (servPoolLoop env p_TID s3.poolTokenReqs s3).bind fun s4 =>
  some { s4 with holders := servHldrApply p_TID s4.holderTknReqs s4.holders }

/-- `token::reqservice` (src/src/modihost.cpp lines 891-1113): reject a
reused TID, compute the fee, run the pool scan; if the scan left a
shortfall, draw the unmet remainder unconditionally from the main pool
(no eligibility checks) and record its Pool Draw Record; then create the
Service Request row and run both settlement legs synchronously. -/
def reqservice (env : Env) (s : Chain) (p_TID p_hotel : Nat) (p_tokens : Int) : Option Chain :=
  (eosCheck (!(s.hotelFeeReqs.find? (fun r => r.TID == p_TID)).isSome)).bind fun _ =>
  let feeTokens := feeTokensAmount p_tokens
  (allocLoop env p_TID p_hotel p_tokens s.pools s 0 p_tokens 0).bind fun out =>
  (if out.2.1 < p_tokens then
      (out.1.pools.find? (fun p => p.ID == 0)).bind fun ownr =>
      let poolTokensUsed := out.2.2.1
      let found2 := out.2.1 + poolTokensUsed
      (transfer2Esc env out.1 mMainpool mEscrow poolTokensUsed).bind fun s2 =>
      let rewardTokensDouble : Frac :=
        ownr.reward / Frac.ofInt 100 * Frac.ofInt (Int.tdiv poolTokensUsed 10000)
      let rewardTokensAmount : Int := (rewardTokensDouble * Frac.ofInt 10000).trunc
      let poolPercDouble : Frac := ownr.ownerShare / Frac.ofInt 100 * rewardTokensDouble
      let poolRewardTokens : Int := (poolPercDouble * Frac.ofInt 10000).trunc
      let s3 := { s2 with poolTokenReqs := s2.poolTokenReqs ++
        [⟨availablePK (s2.poolTokenReqs.map (fun r => r.ID)), p_TID, p_hotel, ownr.ID,
          ownr.poolName, poolTokensUsed, ownr.reward, rewardTokensAmount, env.tNow,
          poolRewardTokens⟩] }
      some (s3, found2, out.2.2.2 + rewardTokensAmount)
    else some (out.1, out.2.1, out.2.2.2)).bind fun fin =>
  let s5 := { fin.1 with hotelFeeReqs := fin.1.hotelFeeReqs ++
    [⟨p_TID, p_hotel, 0, 0, env.tNow, fin.2.1, feeTokens, fin.2.2⟩] }
  (sndfee2escrw env s5 p_TID p_hotel).bind fun s6 =>
  servprvd2htl env s6 p_TID

/-- Environment used by the concrete witness states: everyone is an
account and every signature is present. -/
def envAll : Env := ⟨fun _ => true, fun _ => true, 1000⟩

/-- A single active holder of pool 4 with 50 sub-units lent and all 50
still remaining. -/
def holderC1 : Holder := ⟨0, 4, 9, 50, 50, 0, 10, 10, true⟩

/-- State with one pool-4 holder position and nothing else. -/
def chainC1 : Chain :=
  { balances := fun _ => none, pools := [], holders := [holderC1], hotelFeeReqs := [],
    poolTokenReqs := [], holderTknReqs := [], poolTknLocks := [], hldrTknLocks := [],
    stakes := [] }

/-- Tables other than the token balances agree between two states; token
transfers only move balances, so they preserve this relation. -/
def TablesEq (s t : Chain) : Prop :=
  t.pools = s.pools ∧ t.holders = s.holders ∧ t.hotelFeeReqs = s.hotelFeeReqs ∧
  t.poolTokenReqs = s.poolTokenReqs ∧ t.holderTknReqs = s.holderTknReqs ∧
  t.poolTknLocks = s.poolTknLocks ∧ t.hldrTknLocks = s.hldrTknLocks ∧ t.stakes = s.stakes

/-- An active pool (id 1, name 5, owner 6, collateral account 7, reward
account 8). -/
def poolNB : Pool :=
  ⟨1, 5, 6, 7, 8, ⟨1, 1⟩, false, ⟨50, 1⟩, ⟨50, 1⟩, 100, 100, 0, 0, 0, 0, 0, true, []⟩

/-- An active holder position in pool 5 with an outstanding draw
(`remainingTokens = 40` but `tokens = 100`). -/
def holderNB : Holder := ⟨0, 5, 9, 100, 40, 0, 10, 10, true⟩

/-- Pool 5 is active with an outstanding holder draw, but the pool
account has no token balance row. -/
def chainC6 : Chain := ⟨fun _ => none, [poolNB], [holderNB], [], [], [], [], [], []⟩

/-- As `chainC6` but the pool account holds a balance row. -/
def chainC6b : Chain :=
  ⟨fun a => if a = 5 then some 100 else none, [poolNB], [holderNB], [], [], [], [], [], []⟩

/-- The collateral stake of pool 5's collateral account 7. -/
def stakeC8 : Stake := ⟨7, 100, 5⟩

/-- Pool 5 is active and staked, but its pool account has no token
balance row; no holder positions. -/
def chainC8 : Chain := ⟨fun _ => none, [poolNB], [], [], [], [], [], [], [stakeC8]⟩

/-- As `chainC8` but the pool account holds a balance row. -/
def chainC8b : Chain :=
  ⟨fun a => if a = 5 then some 100 else none, [poolNB], [], [], [], [], [], [], [stakeC8]⟩

/-- The main pool row (id 0) as `initialize` creates it. -/
def mainPool0 : Pool :=
  ⟨0, 3, 3, 3, 3, ⟨1, 10⟩, false, ⟨100, 1⟩, ⟨0, 1⟩, 10000000, 10000000, 10000000, 0, 1000, 0,
    1000, true, []⟩

/-- A state ready for `addpool`: the main pool exists and the prospective
collateral account 8 holds 200,000.0000 tokens. -/
def chainC9 : Chain :=
  ⟨fun a => if a = 8 then some 2000000000 else none, [mainPool0], [], [], [], [], [], [], []⟩

/-- A Service Request whose both settlement flags are already 1. -/
def reqPaid : HotelFeeReq := ⟨1, 7, 1, 1, 100, 100, 10, 20⟩

/-- A settled state: the request of `reqPaid` is recorded with both flags
set, and requester 7, escrow and operator all hold balances. -/
def chainC3 : Chain :=
  ⟨fun a => if a = 7 then some 1000 else if a = 2 then some 500 else
      if a = 1 then some 500 else none,
    [], [], [reqPaid], [], [], [], [], []⟩

/-- A state on which `reqservice` succeeds end to end: only the main pool
exists (holding 1,000.0000 tokens) and requester 7 holds 0.1000 tokens
over the fee. -/
def chainW : Chain :=
  ⟨fun a => if a = 3 then some 10000000 else if a = 7 then some 1000 else none,
    [mainPool0], [], [], [], [], [], [], []⟩

/-- As `chainW` but TID 2 is already used. -/
def chainDup : Chain :=
  ⟨fun a => if a = 3 then some 10000000 else if a = 7 then some 1000 else none,
    [mainPool0], [], [⟨2, 9, 0, 0, 50, 0, 0, 0⟩], [], [], [], [], []⟩

/-! ## Theorems -/

@[simp] theorem Frac.mul_def (a b : Frac) : a * b = ⟨a.num * b.num, a.den * b.den⟩ := rfl

@[simp] theorem Frac.div_def (a b : Frac) : a / b = ⟨a.num * b.den, a.den * b.num⟩ := rfl

theorem eligibleRemaining_nil (pool : Nat) : eligibleRemaining pool [] = 0 := rfl

theorem eligibleRemaining_cons_pos (pool : Nat) (h : Holder) (rest : List Holder)
    (hpn : h.poolName = pool) (hact : h.isActive = true) (hrem : 0 < h.remainingTokens) :
    eligibleRemaining pool (h :: rest) = h.remainingTokens + eligibleRemaining pool rest := by
  rw [eligibleRemaining, List.filter_cons, if_pos (by simp [hpn, hact, hrem])]
  rw [List.map_cons, List.sum_cons]
  rfl

theorem eligibleRemaining_cons_neg (pool : Nat) (h : Holder) (rest : List Holder)
    (hne : ¬(h.poolName = pool ∧ h.isActive = true ∧ 0 < h.remainingTokens)) :
    eligibleRemaining pool (h :: rest) = eligibleRemaining pool rest := by
  rw [eligibleRemaining, List.filter_cons, if_neg (by simpa [and_assoc] using hne)]
  rfl

theorem eligibleRemaining_nonneg (pool : Nat) (hs : List Holder) :
    0 ≤ eligibleRemaining pool hs := by
  induction hs with
  | nil => simp [eligibleRemaining_nil]
  | cons h rest ih =>
    by_cases hc : h.poolName = pool ∧ h.isActive = true ∧ 0 < h.remainingTokens
    · rw [eligibleRemaining_cons_pos pool h rest hc.1 hc.2.1 hc.2.2]
      have := hc.2.2
      omega
    · rw [eligibleRemaining_cons_neg pool h rest hc]
      exact ih

theorem updhldrLoop_tokens_sum (tid hotel pool : Nat) (p_reward p_holderPerc : Frac)
    (lockedUntil tNow : Nat) (A : Int) :
    ∀ (hs : List Holder) (found : Int) (reqPK lockPK : Nat), 0 ≤ found → found ≤ A →
      (((updhldrLoop tid hotel pool p_reward p_holderPerc lockedUntil tNow A
          found reqPK lockPK hs).1).map (fun r => r.tokens)).sum
        = min (A - found) (eligibleRemaining pool hs) := by
  intro hs
  induction hs with
  | nil =>
    intro found reqPK lockPK h0 hA
    rw [updhldrLoop, eligibleRemaining_nil]
    simp only [List.map_nil, List.sum_nil]
    omega
  | cons h rest ih =>
    intro found reqPK lockPK h0 hA
    by_cases hpn : h.poolName = pool
    · by_cases hact : h.isActive = false
      · rw [updhldrLoop, if_pos hpn, if_pos hact,
          eligibleRemaining_cons_neg pool h rest (by simp [hact])]
        exact ih found reqPK lockPK h0 hA
      · have hactT : h.isActive = true := by
          revert hact; cases h.isActive <;> simp
        by_cases hrem : h.remainingTokens ≤ 0
        · rw [updhldrLoop, if_pos hpn, if_neg hact, if_pos hrem,
            eligibleRemaining_cons_neg pool h rest (by intro hc; omega)]
          exact ih found reqPK lockPK h0 hA
        · have hremP : 0 < h.remainingTokens := by omega
          rw [eligibleRemaining_cons_pos pool h rest hpn hactT hremP]
          have hS := eligibleRemaining_nonneg pool rest
          by_cases hle : A - found ≤ h.remainingTokens
          · rw [updhldrLoop, if_pos hpn, if_neg hact, if_neg hrem]
            simp only [hle, if_true, ge_iff_le]
            rw [if_pos (by omega : A ≤ found + (A - found))]
            simp only [List.map_cons, List.map_nil, List.sum_cons, List.sum_nil]
            omega
          · rw [updhldrLoop, if_pos hpn, if_neg hact, if_neg hrem]
            simp only [hle, if_false, ge_iff_le]
            rw [if_neg (by omega : ¬ A ≤ found + h.remainingTokens)]
            simp only [List.map_cons, List.sum_cons]
            rw [ih (found + h.remainingTokens) (reqPK + 1) (lockPK + 1) (by omega) (by omega)]
            omega
    · rw [updhldrLoop, if_neg hpn,
        eligibleRemaining_cons_neg pool h rest (by intro hc; exact hpn hc.1)]
      exact ih found reqPK lockPK h0 hA

/-- Claim C1 (counterexample): a pool-level draw of 100 sub-units against
a pool whose only eligible holder has 50 remaining produces Holder Draw
Records summing to 50, not to the pool-level draw amount 100 — without a
precondition on the holders' collective remaining balance, the records do
not always sum to the pool-level amount. -/
theorem updhldrtkns_sum_counterexample :
    (((updhldrtkns envAll chainC1 1 100 7 4 ⟨2, 10⟩ ⟨50, 1⟩ 99).holderTknReqs).map
        (fun r => r.tokens)).sum = 50 ∧ (50 : Int) ≠ 100 := by
  constructor
  · decide
  · decide

/-- Claim C1 (amended): for a pool-level draw amount `A ≥ 0`, the Holder
Draw Records created by `updhldrtkns` for that TID and pool have token
amounts summing to `min A R`, where `R` is the collective remaining
balance of the pool's eligible (active, positive-remaining) holders; the
sum equals `A` exactly when the holders collectively still have at least
`A` remaining. -/
theorem updhldrtkns_draws_sum (env : Env) (s : Chain) (tid : Nat) (A : Int)
    (hotel pool : Nat) (p_reward p_holderPerc : Frac) (lockedUntil : Nat) (hA : 0 ≤ A) :
    (((updhldrtkns env s tid A hotel pool p_reward p_holderPerc lockedUntil).holderTknReqs.drop
        s.holderTknReqs.length).map (fun r => r.tokens)).sum
      = min A (eligibleRemaining pool s.holders) := by
  rw [updhldrtkns]
  simp only [List.drop_left]
  have := updhldrLoop_tokens_sum tid hotel pool p_reward p_holderPerc lockedUntil env.tNow A
    s.holders 0 (availablePK (s.holderTknReqs.map (fun r => r.ID)))
    (availablePK (s.hldrTknLocks.map (fun r => r.ID))) le_rfl hA
  simpa using this

/-- Claim C1 witness: a draw of 30 against the same single-holder pool
(50 remaining) sums to `min 30 50 = 30`. -/
theorem updhldrtkns_draws_sum_witness :
    (((updhldrtkns envAll chainC1 1 30 7 4 ⟨2, 10⟩ ⟨50, 1⟩ 99).holderTknReqs.drop
        chainC1.holderTknReqs.length).map (fun r => r.tokens)).sum
      = min 30 (eligibleRemaining 4 chainC1.holders) :=
  updhldrtkns_draws_sum envAll chainC1 1 30 7 4 ⟨2, 10⟩ ⟨50, 1⟩ 99 (by norm_num)

/-- Claim C4 (code_bug evidence): at input amount 3 the Babylonian
iteration of `sqroot` never terminates, whatever the fuel: the estimates
oscillate between 1 and 2 forever (the first step goes 1 → 2, so the
sequence is not even non-increasing after the first step, and successive
estimates never become equal). -/
theorem sqroot_three_diverges : ∀ fuel : Nat, sqroot fuel 3 = none := by
  have cyc : ∀ f : Nat, sqrootIter 3 f 2 1 = none ∧ sqrootIter 3 f 1 2 = none := by
    intro f
    induction f with
    | zero => constructor <;> simp [sqrootIter]
    | succ g ih =>
      constructor
      · show sqrootIter 3 (g + 1) 2 1 = none
        have h2 : ((3 / 2 + 2) / 2 : Nat) = 1 := by norm_num
        simp only [sqrootIter, if_neg (by norm_num : ¬ (2 : Nat) = 1), h2]
        exact ih.2
      · show sqrootIter 3 (g + 1) 1 2 = none
        have h1 : ((3 / 1 + 1) / 2 : Nat) = 2 := by norm_num
        simp only [sqrootIter, if_neg (by norm_num : ¬ (1 : Nat) = 2), h1]
        exact ih.1
  intro fuel
  cases fuel with
  | zero => simp [sqroot, sqrootIter]
  | succ f =>
    have h1 : ((3 / 1 + 1) / 2 : Nat) = 2 := by norm_num
    simp only [sqroot, sqrootIter, Nat.reduceDiv,
      if_neg (by norm_num : ¬ (1 : Nat) = 0), h1, (cyc f).1, Option.map_none']

/-- Claim C10: `sqroot` applied to amount 0 returns 0 without ever
entering the loop body (the initial estimate `0/2 = 0` already equals the
initial `temp = 0`, so even zero fuel suffices and the division by `temp`
in the loop body is never executed); the same holds for input 1, whose
initial estimate `1/2 = 0` also equals `temp`, so it also returns 0. -/
theorem sqroot_zero_and_one :
    sqroot 0 0 = some 0 ∧ sqroot 0 1 = some 0 ∧
    ∀ fuel : Nat, sqroot fuel 0 = some 0 ∧ sqroot fuel 1 = some 0 := by
  refine ⟨by simp [sqroot, sqrootIter], by simp [sqroot, sqrootIter], ?_⟩
  intro fuel
  cases fuel <;> constructor <;> simp [sqroot, sqrootIter]

/-- Claim C7 (counterexample): for the request amount 0.5000 tokens
(5000 sub-units) the code records a fee of 0, while 0.5 % of the amount is
25 sub-units: the recorded fee is not `feeRatePercent * amount`. -/
theorem feeTokensAmount_not_exact_at_5000 :
    feeTokensAmount 5000 = 0 ∧ modihostFees.toRat / 100 * (5000 : ℚ) = 25 ∧
    ((feeTokensAmount 5000 : ℚ) ≠ modihostFees.toRat / 100 * (5000 : ℚ)) := by
  have h0 : feeTokensAmount 5000 = 0 := by decide
  refine ⟨h0, by norm_num [modihostFees, Frac.toRat], ?_⟩
  rw [h0]
  norm_num [modihostFees, Frac.toRat]

/-- Claim C7 (amended): the fee recorded by `reqservice` is 0.5 % of the
whole-token part of the amount only: `feesTokens = 50 * ⌊A / 10000⌋`
sub-units; it equals `feeRatePercent * A` exactly iff `A` is a whole
number of tokens (`A % 10000 = 0`).  The sub-token fraction of `A` is
discarded by the int64_t division `p_tokens.amount/10000` before the rate
is applied. -/
theorem feeTokensAmount_eq_floor (a : Int) (ha : 0 ≤ a) :
    feeTokensAmount a = 50 * (a / 10000) ∧
    ((feeTokensAmount a : ℚ) = modihostFees.toRat / 100 * (a : ℚ) ↔ a % 10000 = 0) := by
  have hdiv : Int.tdiv a 10000 = a / 10000 :=
    Int.tdiv_eq_ediv ha (by norm_num)
  have hfrac : modihostFees / Frac.ofInt 100 * Frac.ofInt (Int.tdiv a 10000)
      * Frac.ofInt 10000 = ⟨5 * (a / 10000) * 10000, 1000⟩ := by
    simp only [Frac.mul_def, Frac.div_def, Frac.ofInt, modihostFees, hdiv, Frac.mk.injEq]
    constructor <;> ring
  have h1 : feeTokensAmount a = 50 * (a / 10000) := by
    show (modihostFees / Frac.ofInt 100 * Frac.ofInt (Int.tdiv a 10000)
        * Frac.ofInt 10000).trunc = 50 * (a / 10000)
    rw [hfrac]
    show Int.tdiv (5 * (a / 10000) * 10000) 1000 = 50 * (a / 10000)
    rw [show (5 * (a / 10000) * 10000 : Int) = 1000 * (50 * (a / 10000)) from by ring,
      Int.mul_tdiv_cancel_left _ (by norm_num)]
  refine ⟨h1, ?_⟩
  rw [h1]
  have hrat : modihostFees.toRat / 100 = (1 : ℚ) / 200 := by
    norm_num [modihostFees, Frac.toRat]
  rw [hrat]
  constructor
  · intro h
    have h2 : ((10000 * (a / 10000) : Int) : ℚ) = (a : ℚ) := by
      push_cast at h ⊢
      linarith
    have h3 : 10000 * (a / 10000) = a := by exact_mod_cast h2
    have := Int.ediv_add_emod a 10000
    omega
  · intro h
    have h3 : 10000 * (a / 10000) = a := by
      have := Int.ediv_add_emod a 10000
      omega
    have h4 : (10000 : ℚ) * ((a / 10000 : Int) : ℚ) = (a : ℚ) := by
      exact_mod_cast congrArg (fun z : Int => (z : ℚ)) h3
    push_cast
    linarith [h4]

/-- Claim C7 witness for the amended theorem: at amount 12.3456 tokens the
fee is 50 * 12 = 600 sub-units, and it differs from 0.5 % of the amount
(617.28 sub-units) because the amount is not a whole number of tokens. -/
theorem feeTokensAmount_eq_floor_witness :
    feeTokensAmount 123456 = 50 * ((123456 : Int) / 10000) ∧
    ((feeTokensAmount 123456 : ℚ) ≠ modihostFees.toRat / 100 * (123456 : ℚ)) := by
  have h := feeTokensAmount_eq_floor 123456 (by norm_num)
  refine ⟨h.1, fun hc => ?_⟩
  have := h.2.mp hc
  norm_num at this

theorem eosCheck_eq_some {p : Prop} [Decidable p] {u : Unit} : eosCheck p = some u ↔ p := by
  cases u
  rw [eosCheck]
  split_ifs with hp
  · simp [hp]
  · simp [hp]

theorem eosCheck_bind_none {α : Type} {p : Prop} [Decidable p] {f : Unit → Option α}
    (hf : f () = none) : (eosCheck p).bind f = none := by
  rw [eosCheck]
  split_ifs
  · simpa using hf
  · rfl

theorem tablesEq_trans {s t u : Chain} (h1 : TablesEq s t) (h2 : TablesEq t u) : TablesEq s u := by
  obtain ⟨a1, a2, a3, a4, a5, a6, a7, a8⟩ := h1
  obtain ⟨b1, b2, b3, b4, b5, b6, b7, b8⟩ := h2
  exact ⟨b1.trans a1, b2.trans a2, b3.trans a3, b4.trans a4, b5.trans a5, b6.trans a6,
    b7.trans a7, b8.trans a8⟩

theorem setBal_tablesEq (s : Chain) (a : Nat) (v : Int) : TablesEq s (setBal s a v) :=
  ⟨rfl, rfl, rfl, rfl, rfl, rfl, rfl, rfl⟩

theorem add_balance_tablesEq (s : Chain) (a : Nat) (v : Int) : TablesEq s (add_balance s a v) := by
  rw [add_balance]
  cases s.balances a
  · exact setBal_tablesEq s a v
  · exact setBal_tablesEq s a _

theorem sub_balance2_some_eq {s : Chain} {o : Nat} {v : Int} {t : Chain}
    (h : sub_balance2 s o v = some t) :
    ∃ b, s.balances o = some b ∧ v ≤ b ∧ t = setBal s o (b - v) := by
  simp only [sub_balance2, Option.bind_eq_some, eosCheck_eq_some, Option.some.injEq,
    exists_const] at h
  obtain ⟨b, hb, hle, ht⟩ := h
  exact ⟨b, hb, hle, ht.symm⟩

theorem sub_balance_some_eq {s : Chain} {o : Nat} {v : Int} {t : Chain}
    (h : sub_balance s o v = some t) :
    ∃ b, s.balances o = some b ∧ v ≤ b ∧ t = setBal s o (b - v) := by
  simp only [sub_balance, Option.bind_eq_some, eosCheck_eq_some, Option.some.injEq,
    exists_const] at h
  obtain ⟨b, hb, hle, rest⟩ := h
  obtain ⟨u2, _, ht⟩ := rest
  exact ⟨b, hb, hle, ht.symm⟩

theorem transfer2Esc_some_eq {env : Env} {s : Chain} {frm toAcc : Nat} {q : Int} {t : Chain}
    (h : transfer2Esc env s frm toAcc q = some t) :
    ∃ b, s.balances frm = some b ∧ q ≤ b ∧ frm ≠ toAcc ∧ 0 < q ∧
      t = add_balance2 (setBal s frm (b - q)) toAcc q := by
  simp only [transfer2Esc, Option.bind_eq_some, eosCheck_eq_some, Option.some.injEq,
    exists_const] at h
  obtain ⟨hne, hacc, hq, s1, hs1, ht⟩ := h
  obtain ⟨b, hb, hle, rfl⟩ := sub_balance2_some_eq hs1
  exact ⟨b, hb, hle, hne, hq, ht.symm⟩

theorem transfer2Esc_tablesEq {env : Env} {s : Chain} {frm toAcc : Nat} {q : Int} {t : Chain}
    (h : transfer2Esc env s frm toAcc q = some t) : TablesEq s t := by
  obtain ⟨b, hb, hle, hne, hq, rfl⟩ := transfer2Esc_some_eq h
  exact tablesEq_trans (setBal_tablesEq s frm (b - q)) (add_balance_tablesEq _ toAcc q)

theorem transfer_some_eq {env : Env} {s : Chain} {frm toAcc : Nat} {q : Int} {t : Chain}
    (h : transfer env s frm toAcc q = some t) :
    ∃ b, s.balances frm = some b ∧ q ≤ b ∧ frm ≠ toAcc ∧ env.auth frm = true ∧ 0 < q ∧
      t = add_balance (setBal s frm (b - q)) toAcc q := by
  simp only [transfer, Option.bind_eq_some, eosCheck_eq_some, Option.some.injEq,
    exists_const] at h
  obtain ⟨hne, hauth, hacc, hq, s1, hs1, ht⟩ := h
  obtain ⟨b, hb, hle, rfl⟩ := sub_balance_some_eq hs1
  exact ⟨b, hb, hle, hne, hauth, hq, ht.symm⟩

theorem transfer_tablesEq {env : Env} {s : Chain} {frm toAcc : Nat} {q : Int} {t : Chain}
    (h : transfer env s frm toAcc q = some t) : TablesEq s t := by
  obtain ⟨b, hb, hle, hne, hauth, hq, rfl⟩ := transfer_some_eq h
  exact tablesEq_trans (setBal_tablesEq s frm (b - q)) (add_balance_tablesEq _ toAcc q)

theorem trmPayLoop_preserves (env : Env) (pn ra : Nat) :
    ∀ (hs : List Holder) (s t : Chain), trmPayLoop env pn ra hs s = some t →
      t.stakes = s.stakes ∧ t.hotelFeeReqs = s.hotelFeeReqs := by
  intro hs
  induction hs with
  | nil =>
    intro s t h
    rw [trmPayLoop] at h
    obtain rfl := Option.some.inj h
    exact ⟨rfl, rfl⟩
  | cons h0 rest ih =>
    intro s t h
    rw [trmPayLoop] at h
    by_cases h1 : h0.isActive ≠ true
    · rw [if_pos h1] at h
      exact ih s t h
    rw [if_neg h1] at h
    by_cases h2 : h0.poolName = pn
    swap
    · rw [if_neg h2] at h
      exact ih s t h
    · rw [if_pos h2] at h
      simp only [Option.bind_eq_some] at h
      obtain ⟨s1, hs1, s2, hs2, h3⟩ := h
      have e1 : s1.stakes = s.stakes ∧ s1.hotelFeeReqs = s.hotelFeeReqs := by
        by_cases hc : 0 < h0.tokens
        · rw [if_pos hc] at hs1
          have := transfer2Esc_tablesEq hs1
          exact ⟨this.2.2.2.2.2.2.2, this.2.2.1⟩
        · rw [if_neg hc] at hs1
          obtain rfl := Option.some.inj hs1
          exact ⟨rfl, rfl⟩
      have e2 : s2.stakes = s1.stakes ∧ s2.hotelFeeReqs = s1.hotelFeeReqs := by
        by_cases hc : 0 < h0.availableReward
        · rw [if_pos hc] at hs2
          have := transfer2Esc_tablesEq hs2
          exact ⟨this.2.2.2.2.2.2.2, this.2.2.1⟩
        · rw [if_neg hc] at hs2
          obtain rfl := Option.some.inj hs2
          exact ⟨rfl, rfl⟩
      have e3 := ih _ _ h3
      exact ⟨(e3.1.trans e2.1).trans e1.1, (e3.2.trans e2.2).trans e1.2⟩

theorem trmCheckLoop_none (pn : Nat) :
    ∀ (hs : List Holder) (totB totR : Int),
      (∃ h ∈ hs, h.poolName = pn ∧ h.isActive = true ∧ h.remainingTokens ≠ h.tokens) →
      trmCheckLoop pn hs totB totR = none := by
  intro hs
  induction hs with
  | nil =>
    intro totB totR h
    obtain ⟨x, hx, _⟩ := h
    exact absurd hx (List.not_mem_nil x)
  | cons h0 rest ih =>
    intro totB totR hout
    obtain ⟨x, hx, hxp, hxa, hxr⟩ := hout
    rcases List.mem_cons.mp hx with rfl | hmem
    · rw [trmCheckLoop, if_pos hxp, if_neg (by simp [hxa]), if_neg hxr]
    · rw [trmCheckLoop]
      split_ifs <;> first
        | rfl
        | exact ih _ _ ⟨x, hmem, hxp, hxa, hxr⟩

/-- Claim C6 (amended): when the pool account holds a token balance row,
terminating an active pool that has an active holder position with
`remainingTokens != tokens` (an outstanding draw) aborts with no state
change: `trminatepool` returns `none`. -/
theorem trminatepool_blocks_on_outstanding (env : Env) (s : Chain) (pn : Nat) (p : Pool)
    (b : Int) (hfind : s.pools.find? (fun q => q.poolName == pn) = some p)
    (hbal : s.balances pn = some b)
    (hout : ∃ h ∈ s.holders, h.poolName = pn ∧ h.isActive = true ∧
      h.remainingTokens ≠ h.tokens) :
    trminatepool env s pn = none := by
  have hchk : trmCheckLoop pn s.holders 0 0 = none := trmCheckLoop_none pn s.holders 0 0 hout
  rw [trminatepool, hfind, Option.some_bind]
  apply eosCheck_bind_none
  apply eosCheck_bind_none
  rw [hbal]
  show (trmCheckLoop pn s.holders 0 0).bind _ = none
  rw [hchk]
  rfl

/-- Claim C6 (counterexample): `chainC6` has an active pool (name 5)
with an active holder position holding an outstanding draw
(`remainingTokens = 40 ≠ 100 = tokens`), yet — because the pool account
has no token balance row — `trminatepool` succeeds and deactivates the
pool instead of aborting. -/
theorem trminatepool_outstanding_draw_succeeds :
    (∃ h ∈ chainC6.holders, h.poolName = 5 ∧ h.isActive = true ∧
      h.remainingTokens ≠ h.tokens) ∧
    chainC6.pools.map (fun p => p.isActive) = [true] ∧
    (trminatepool envAll chainC6 5).map (fun t => t.pools.map (fun p => p.isActive))
      = some [false] := by
  refine ⟨⟨holderNB, by decide, by decide, by decide, by decide⟩, by decide, by decide⟩

/-- Claim C6 witness: on `chainC6b` (same outstanding draw, but the pool
account holds a balance row) termination aborts. -/
theorem trminatepool_blocks_witness : trminatepool envAll chainC6b 5 = none :=
  trminatepool_blocks_on_outstanding envAll chainC6b 5 poolNB 100 (by decide) (by decide)
    ⟨holderNB, by decide, by decide, by decide, by decide⟩

theorem addpool_some_eq {env : Env} {fuel : Nat} {s : Chain} {pn oa ca ra : Nat} {rwd : Frac}
    {ip : Bool} {oshr hshr : Frac} {pc : Int} {ar : List Nat} {t : Chain}
    (h : addpool env fuel s pn oa ca ra rwd ip oshr hshr pc ar = some t) :
    ∃ np : Pool, t.pools = s.pools ++ [np] ∧ np.poolName = pn ∧ np.colaterlAcnt = ca ∧
      np.isActive = true ∧ t.stakes = s.stakes ++ [⟨ca, pc, env.tNow⟩] := by
  simp only [addpool, Option.bind_eq_some, eosCheck_eq_some, Option.some.injEq,
    exists_const] at h
  obtain ⟨h1, h2, h3, h4, h5, h6, h7, h8, b, hb, h9, caRoot, hroot, h10, ht⟩ := h
  subst ht
  exact ⟨_, rfl, rfl, rfl, rfl, rfl⟩

/-- Claim C8 (amended): `addpool` creates the pool and its collateral
stake together, and a successful `trminatepool` on a pool whose account
holds a token balance row deletes the stake; but in the branch where the
pool account has no balance row the pool is deactivated and the stake is
left in place (the stakes table is unchanged). -/
theorem stake_lifecycle :
    (∀ (env : Env) (fuel : Nat) (s : Chain) (pn oa ca ra : Nat) (rwd : Frac) (ip : Bool)
        (oshr hshr : Frac) (pc : Int) (ar : List Nat) (t : Chain),
      addpool env fuel s pn oa ca ra rwd ip oshr hshr pc ar = some t →
      (∃ st ∈ t.stakes, st.colateral = ca ∧ st.tokens = pc) ∧
      ∃ np ∈ t.pools, np.poolName = pn ∧ np.isActive = true) ∧
    (∀ (env : Env) (s : Chain) (pn : Nat) (p : Pool) (b : Int) (t : Chain),
      s.pools.find? (fun q => q.poolName == pn) = some p →
      s.balances pn = some b → trminatepool env s pn = some t →
      ∀ st ∈ t.stakes, st.colateral ≠ p.colaterlAcnt) ∧
    (∀ (env : Env) (s : Chain) (pn : Nat) (p : Pool) (t : Chain),
      s.pools.find? (fun q => q.poolName == pn) = some p →
      s.balances pn = none → trminatepool env s pn = some t →
      t.stakes = s.stakes) := by
  refine ⟨?_, ?_, ?_⟩
  · intro env fuel s pn oa ca ra rwd ip oshr hshr pc ar t h
    obtain ⟨np, hp, hn, hc, ha, hs⟩ := addpool_some_eq h
    constructor
    · refine ⟨⟨ca, pc, env.tNow⟩, ?_, rfl, rfl⟩
      rw [hs]
      exact List.mem_append_right _ (List.mem_singleton_self _)
    · refine ⟨np, ?_, hn, ha⟩
      rw [hp]
      exact List.mem_append_right _ (List.mem_singleton_self _)
  · intro env s pn p b t hfind hbal h
    rw [trminatepool, hfind, Option.some_bind, hbal] at h
    simp only [Option.bind_eq_some, eosCheck_eq_some, Option.some.injEq, exists_const] at h
    obtain ⟨hact, hauth, tots, htots, hchk2, u1, hif, s1, hpay, s2, hs2, bp, hbp, ht⟩ := h
    subst ht
    intro st hst
    simp only [List.mem_filter] at hst
    exact bne_iff_ne.mp hst.2
  · intro env s pn p t hfind hbal h
    rw [trminatepool, hfind, Option.some_bind, hbal] at h
    simp only [Option.bind_eq_some, eosCheck_eq_some, Option.some.injEq, exists_const] at h
    obtain ⟨hact, hauth, ht⟩ := h
    subst ht
    rfl

/-- Claim C8 (counterexample): on `chainC8` — active pool 5, collateral
stake present, no token balance row for the pool account —
`trminatepool` succeeds and deactivates the pool, yet the stake is not
deleted: the stake outlives its pool. -/
theorem trminatepool_stake_survives :
    (trminatepool envAll chainC8 5).map
        (fun t => (t.pools.map (fun p => p.isActive), t.stakes)) = some ([false], [stakeC8]) := by
  decide

/-- Claim C8 witness: a concrete `addpool` creating pool and stake
together, a concrete balance-row termination releasing the stake, and a
concrete no-balance-row termination leaving the stakes table unchanged. -/
theorem stake_lifecycle_witness :
    (∃ t, addpool envAll 64 chainC9 5 6 8 9 ⟨1, 1⟩ false ⟨50, 1⟩ ⟨50, 1⟩ 1000000000 []
        = some t ∧
      (∃ st ∈ t.stakes, st.colateral = 8 ∧ st.tokens = 1000000000) ∧
      ∃ np ∈ t.pools, np.poolName = 5 ∧ np.isActive = true) ∧
    (∃ t, trminatepool envAll chainC8b 5 = some t ∧
      ∀ st ∈ t.stakes, st.colateral ≠ poolNB.colaterlAcnt) ∧
    (∃ t, trminatepool envAll chainC8 5 = some t ∧ t.stakes = chainC8.stakes) := by
  refine ⟨?_, ?_, ?_⟩
  · have hI : (addpool envAll 64 chainC9 5 6 8 9 ⟨1, 1⟩ false ⟨50, 1⟩ ⟨50, 1⟩
        1000000000 []).isSome = true := by decide
    exact ⟨_, (Option.some_get hI).symm,
      stake_lifecycle.1 _ _ _ _ _ _ _ _ _ _ _ _ _ _ (Option.some_get hI).symm⟩
  · have hI : (trminatepool envAll chainC8b 5).isSome = true := by decide
    exact ⟨_, (Option.some_get hI).symm,
      stake_lifecycle.2.1 _ _ _ poolNB 100 _ (by decide) (by decide) (Option.some_get hI).symm⟩
  · have hI : (trminatepool envAll chainC8 5).isSome = true := by decide
    exact ⟨_, (Option.some_get hI).symm,
      stake_lifecycle.2.2 _ _ _ poolNB _ (by decide) (by decide) (Option.some_get hI).symm⟩

/-- Claim C9: `addpool` performs no authorization check — its result is
the same under any signature set — it succeeds exactly when its explicit
preconditions (`addpoolPre`) hold, and on success it stakes the named
collateral account's declared collateral; so any caller can create a
pool naming an arbitrary collateral account, staking it without any
signature from that account.  (The hypothesis that `sqroot` terminates
on the collateral excludes the non-terminating inputs of claim C4.) -/
theorem addpool_unauthenticated :
    (∀ (a1 a2 ia : Nat → Bool) (tN fuel : Nat) (s : Chain) (pn oa ca ra : Nat) (rwd : Frac)
        (ip : Bool) (oshr hshr : Frac) (pc : Int) (ar : List Nat),
      addpool ⟨a1, ia, tN⟩ fuel s pn oa ca ra rwd ip oshr hshr pc ar
        = addpool ⟨a2, ia, tN⟩ fuel s pn oa ca ra rwd ip oshr hshr pc ar) ∧
    (∀ (env : Env) (fuel : Nat) (s : Chain) (pn oa ca ra : Nat) (rwd : Frac) (ip : Bool)
        (oshr hshr : Frac) (pc : Int) (ar : List Nat),
      (sqroot fuel pc.toNat).isSome = true →
      ((addpool env fuel s pn oa ca ra rwd ip oshr hshr pc ar).isSome = true ↔
        addpoolPre env s pn oa ca ra pc)) ∧
    (∀ (env : Env) (fuel : Nat) (s : Chain) (pn oa ca ra : Nat) (rwd : Frac) (ip : Bool)
        (oshr hshr : Frac) (pc : Int) (ar : List Nat) (t : Chain),
      addpool env fuel s pn oa ca ra rwd ip oshr hshr pc ar = some t →
      ∃ st ∈ t.stakes, st.colateral = ca ∧ st.tokens = pc) := by
  refine ⟨?_, ?_, ?_⟩
  · intro a1 a2 ia tN fuel s pn oa ca ra rwd ip oshr hshr pc ar
    rfl
  · intro env fuel s pn oa ca ra rwd ip oshr hshr pc ar hsq
    obtain ⟨caRoot, hroot⟩ := Option.isSome_iff_exists.mp hsq
    constructor
    · intro hS
      obtain ⟨t, ht⟩ := Option.isSome_iff_exists.mp hS
      simp only [addpool, Option.bind_eq_some, eosCheck_eq_some, Option.some.injEq,
        exists_const] at ht
      obtain ⟨h1, h2, h3, h4, h5, h6, h7, h8, b, hb, h9, caRoot2, hroot2, h10, ht2⟩ := ht
      refine ⟨h1, h2, h3, h4, ?_, ?_, ?_, h8, ⟨b, hb, h9⟩, ?_⟩
      · obtain ⟨q, hq1, hq2⟩ := List.find?_isSome.mp h5
        exact ⟨q, hq1, by simpa using hq2⟩
      · intro q hq
        cases hf : s.pools.find? (fun p => p.poolName == pn) with
        | some r => rw [hf] at h6; simp at h6
        | none =>
          have := List.find?_eq_none.mp hf q hq
          simpa using this
      · intro q hq
        have := (List.all_eq_true.mp h7) q hq
        simpa using this
      · intro st hst
        cases hf : s.stakes.find? (fun x => x.colateral == ca) with
        | some r => rw [hf] at h10; simp at h10
        | none =>
          have := List.find?_eq_none.mp hf st hst
          simpa using this
    · intro hpre
      obtain ⟨h1, h2, h3, h4, ⟨p0, hp0, hp0id⟩, hname, hcol, hmin, ⟨b, hb, hble⟩, hstk⟩ := hpre
      rw [Option.isSome_iff_exists]
      simp only [addpool, Option.bind_eq_some, eosCheck_eq_some, Option.some.injEq,
        exists_const]
      refine ⟨_, h1, h2, h3, h4, ?_, ?_, ?_, hmin, b, hb, hble, caRoot, hroot, ?_, rfl⟩
      · exact List.find?_isSome.mpr ⟨p0, hp0, by simpa using hp0id⟩
      · rw [List.find?_eq_none.mpr (fun q hq => by simpa using hname q hq)]
        rfl
      · exact List.all_eq_true.mpr (fun q hq => by simpa using hcol q hq)
      · rw [List.find?_eq_none.mpr (fun st hst => by simpa using hstk st hst)]
        rfl
  · intro env fuel s pn oa ca ra rwd ip oshr hshr pc ar t h
    obtain ⟨np, hp, hn, hc, ha, hs⟩ := addpool_some_eq h
    refine ⟨⟨ca, pc, env.tNow⟩, ?_, rfl, rfl⟩
    rw [hs]
    exact List.mem_append_right _ (List.mem_singleton_self _)

/-- Claim C9 witness: with every signature absent the result of `addpool`
equals its result with every signature present; on the concrete state
`chainC9` the preconditions hold and the call succeeds. -/
theorem addpool_unauthenticated_witness :
    (addpool ⟨fun _ => false, fun _ => true, 1000⟩ 64 chainC9 5 6 8 9 ⟨1, 1⟩ false ⟨50, 1⟩
        ⟨50, 1⟩ 1000000000 []
      = addpool ⟨fun _ => true, fun _ => true, 1000⟩ 64 chainC9 5 6 8 9 ⟨1, 1⟩ false ⟨50, 1⟩
        ⟨50, 1⟩ 1000000000 []) ∧
    (addpool envAll 64 chainC9 5 6 8 9 ⟨1, 1⟩ false ⟨50, 1⟩ ⟨50, 1⟩ 1000000000 []).isSome
      = true ∧
    addpoolPre envAll chainC9 5 6 8 9 1000000000 := by
  have hsq : (sqroot 64 (1000000000 : Int).toNat).isSome = true := by decide
  have hpre : addpoolPre envAll chainC9 5 6 8 9 1000000000 :=
    ⟨rfl, rfl, rfl, rfl, ⟨mainPool0, by decide, rfl⟩, by decide, by decide, by decide,
      ⟨2000000000, by decide, by decide⟩, by decide⟩
  refine ⟨addpool_unauthenticated.1 (fun _ => false) (fun _ => true) (fun _ => true) 1000 64
      chainC9 5 6 8 9 ⟨1, 1⟩ false ⟨50, 1⟩ ⟨50, 1⟩ 1000000000 [], ?_, hpre⟩
  exact (addpool_unauthenticated.2.1 envAll 64 chainC9 5 6 8 9 ⟨1, 1⟩ false ⟨50, 1⟩ ⟨50, 1⟩
    1000000000 [] hsq).mpr hpre

theorem eosCheck_none {p : Prop} [Decidable p] (h : ¬ p) : eosCheck p = none := by
  rw [eosCheck, if_neg h]

theorem setBal_balances (s : Chain) (a : Nat) (v : Int) (x : Nat) :
    (setBal s a v).balances x = if x = a then some v else s.balances x := rfl

theorem add_balance_bal_other {s : Chain} {a : Nat} {v : Int} {x : Nat} (hx : x ≠ a) :
    (add_balance s a v).balances x = s.balances x := by
  rw [add_balance]
  cases s.balances a <;> simp [setBal, hx]

theorem add_balance_bal_self {s : Chain} {a : Nat} {v b : Int} (hb : s.balances a = some b) :
    (add_balance s a v).balances a = some (b + v) := by
  rw [add_balance, hb]
  simp [setBal]

theorem transfer2Esc_bal_from {env : Env} {s : Chain} {frm toAcc : Nat} {q : Int} {t : Chain}
    {b : Int} (h : transfer2Esc env s frm toAcc q = some t) (hb : s.balances frm = some b) :
    t.balances frm = some (b - q) := by
  obtain ⟨b2, hb2, hle, hne, hq, rfl⟩ := transfer2Esc_some_eq h
  rw [hb] at hb2
  obtain rfl := Option.some.inj hb2
  rw [add_balance2, add_balance_bal_other hne, setBal_balances, if_pos rfl]

theorem transfer2Esc_bal_to {env : Env} {s : Chain} {frm toAcc : Nat} {q : Int} {t : Chain}
    {c : Int} (h : transfer2Esc env s frm toAcc q = some t) (hc : s.balances toAcc = some c) :
    t.balances toAcc = some (c + q) := by
  obtain ⟨b, hb, hle, hne, hq, rfl⟩ := transfer2Esc_some_eq h
  have hx : (setBal s frm (b - q)).balances toAcc = some c := by
    rw [setBal_balances, if_neg (Ne.symm hne)]
    exact hc
  rw [add_balance2]
  exact add_balance_bal_self hx

theorem transfer2Esc_bal_other {env : Env} {s : Chain} {frm toAcc : Nat} {q : Int} {t : Chain}
    {x : Nat} (h : transfer2Esc env s frm toAcc q = some t) (hx1 : x ≠ frm) (hx2 : x ≠ toAcc) :
    t.balances x = s.balances x := by
  obtain ⟨b, hb, _, hne, _, rfl⟩ := transfer2Esc_some_eq h
  rw [add_balance2, add_balance_bal_other hx2, setBal_balances, if_neg hx1]

theorem transfer_bal_from {env : Env} {s : Chain} {frm toAcc : Nat} {q : Int} {t : Chain}
    {b : Int} (h : transfer env s frm toAcc q = some t) (hb : s.balances frm = some b) :
    t.balances frm = some (b - q) := by
  obtain ⟨b2, hb2, hle, hne, hauth, hq, rfl⟩ := transfer_some_eq h
  rw [hb] at hb2
  obtain rfl := Option.some.inj hb2
  rw [add_balance_bal_other hne, setBal_balances, if_pos rfl]

theorem servPoolLoop_no_match (env : Env) (tid : Nat) :
    ∀ (reqs : List PoolTokenReq) (s : Chain), (∀ r ∈ reqs, r.TID ≠ tid) →
      servPoolLoop env tid reqs s = some s := by
  intro reqs
  induction reqs with
  | nil => intro s _; rfl
  | cons r rest ih =>
    intro s hno
    rw [servPoolLoop, if_neg (hno r (List.mem_cons_self r rest))]
    exact ih s (fun x hx => hno x (List.mem_cons_of_mem r hx))

/-- Claim C3 (amended): the settlement legs are not idempotent-guarded —
neither `sndfee2escrw` nor `servprvd2htl` reads the `isFeePaid` or
`isServiceProvided` flag.  A repeated `sndfee2escrw` on a request whose
`isFeePaid` is already 1 re-executes the fee transfer whenever its
balance checks pass (the requester's balance drops again by
fee + reward), and a repeated `servprvd2htl` with `isServiceProvided`
already 1 re-executes its transfers likewise (shown here for a request
with no draw records: the escrow balance changes again by
principal − fee). -/
theorem settlement_flags_not_consulted :
    (∀ (env : Env) (s : Chain) (tid frm : Nat) (req : HotelFeeReq) (b : Int) (t : Chain),
      s.hotelFeeReqs.find? (fun r => r.TID == tid) = some req →
      req.isFeePaid = 1 →
      0 < req.feesTokens + req.rewardTokens →
      frm ≠ mModihost →
      s.balances frm = some b →
      sndfee2escrw env s tid frm = some t →
      t.balances frm = some (b - (req.feesTokens + req.rewardTokens)) ∧
      t.balances frm ≠ s.balances frm) ∧
    (∀ (env : Env) (s : Chain) (tid : Nat) (req : HotelFeeReq) (e : Int) (t : Chain),
      s.hotelFeeReqs.find? (fun r => r.TID == tid) = some req →
      req.isServiceProvided = 1 →
      (∀ r ∈ s.poolTokenReqs, r.TID ≠ tid) →
      s.balances mEscrow = some e →
      req.totalTokens ≠ req.feesTokens →
      servprvd2htl env s tid = some t →
      t.balances mEscrow = some (e + req.totalTokens - req.feesTokens) ∧
      t.balances mEscrow ≠ s.balances mEscrow) := by
  constructor
  · intro env s tid frm req b t hfind hflag hpos hfrm hb h
    rw [sndfee2escrw, hfind, Option.some_bind] at h
    simp only [Option.bind_eq_some, eosCheck_eq_some, exists_const] at h
    obtain ⟨hb2, hbeq, hle, s1, htr, e, hesc, hle2, hfin⟩ := h
    obtain ⟨b3, hb3, hle3, hneFE, hauth, hq, heq1⟩ := transfer_some_eq htr
    have h1 : s1.balances frm = some (b - (req.feesTokens + req.rewardTokens)) :=
      transfer_bal_from htr hb
    have h2 := transfer2Esc_bal_other hfin hneFE hfrm
    have h3 : t.balances frm = some (b - (req.feesTokens + req.rewardTokens)) := h2.trans h1
    refine ⟨h3, ?_⟩
    rw [h3, hb]
    intro hcc
    have := Option.some.inj hcc
    omega
  · intro env s tid req e t hfind hflag hnoreq he hneq h
    rw [servprvd2htl, hfind, Option.some_bind] at h
    simp only [Option.bind_eq_some, eosCheck_eq_some, exists_const] at h
    obtain ⟨mb, hmb, hle1, s1, htr1, eb, heb, hle2, s3, htr3, s4, hloop, hfin⟩ := h
    have hesc1 : s1.balances mEscrow = some (e + req.totalTokens) :=
      transfer2Esc_bal_to htr1 he
    have hesc3 : s3.balances mEscrow = some (e + req.totalTokens - req.feesTokens) :=
      transfer2Esc_bal_from htr3 hesc1
    have hpt : s3.poolTokenReqs = s.poolTokenReqs := by
      have e3 := (transfer2Esc_tablesEq htr3).2.2.2.1
      have e1 := (transfer2Esc_tablesEq htr1).2.2.2.1
      exact e3.trans e1
    have hid : servPoolLoop env tid s3.poolTokenReqs s3 = some s3 :=
      servPoolLoop_no_match env tid s3.poolTokenReqs s3
        (fun r hr => hnoreq r (hpt ▸ hr))
    rw [hid] at hloop
    obtain rfl := Option.some.inj hloop
    obtain rfl := Option.some.inj hfin
    refine ⟨hesc3, ?_⟩
    rw [hesc3, he]
    intro hcc
    have := Option.some.inj hcc
    omega

/-- Claim C3 (counterexample): on the settled state `chainC3` — request
TID 1 with `isFeePaid = 1` and `isServiceProvided = 1` — a repeated
`sndfee2escrw` succeeds and moves the requester's tokens again (balance
1000 → 970), and a repeated `servprvd2htl` succeeds and moves the
operator's tokens again (balance 500 → 410): the flags do not make the
legs idempotent. -/
theorem settlement_reexecution_counterexample :
    ((chainC3.hotelFeeReqs.find? (fun r => r.TID == 1)).map
        (fun r => (r.isFeePaid, r.isServiceProvided)) = some (1, 1)) ∧
    chainC3.balances 7 = some 1000 ∧
    ((sndfee2escrw envAll chainC3 1 7).map (fun t => t.balances 7) = some (some 970)) ∧
    chainC3.balances 1 = some 500 ∧
    ((servprvd2htl envAll chainC3 1).map (fun t => t.balances 1) = some (some 410)) := by
  refine ⟨by decide, by decide, by decide, by decide, by decide⟩

/-- Claim C3 witness for the amended theorem, instantiated on
`chainC3`. -/
theorem settlement_flags_not_consulted_witness :
    (∃ t, sndfee2escrw envAll chainC3 1 7 = some t ∧
      t.balances 7 = some (1000 - (reqPaid.feesTokens + reqPaid.rewardTokens)) ∧
      t.balances 7 ≠ chainC3.balances 7) ∧
    (∃ t, servprvd2htl envAll chainC3 1 = some t ∧
      t.balances mEscrow = some (500 + reqPaid.totalTokens - reqPaid.feesTokens) ∧
      t.balances mEscrow ≠ chainC3.balances mEscrow) := by
  constructor
  · have hI : (sndfee2escrw envAll chainC3 1 7).isSome = true := by decide
    exact ⟨_, (Option.some_get hI).symm,
      settlement_flags_not_consulted.1 envAll chainC3 1 7 reqPaid 1000 _ (by decide) rfl
        (by decide) (by decide) (by decide) (Option.some_get hI).symm⟩
  · have hI : (servprvd2htl envAll chainC3 1).isSome = true := by decide
    exact ⟨_, (Option.some_get hI).symm,
      settlement_flags_not_consulted.2 envAll chainC3 1 reqPaid 500 _ (by decide) rfl
        (by decide) (by decide) (by decide) (Option.some_get hI).symm⟩

theorem allocLoop_spec (env : Env) (tid hotel : Nat) (A : Int) :
    ∀ (ps : List Pool) (s : Chain) (found remaining totR : Int)
      (out : Chain × Int × Int × Int),
      allocLoop env tid hotel A ps s found remaining totR = some out →
      out.1.hotelFeeReqs = s.hotelFeeReqs ∧
      (remaining = A - found → 0 ≤ found → found ≤ A →
        out.2.2.1 = A - out.2.1 ∧ 0 ≤ out.2.1 ∧ out.2.1 ≤ A) := by
  intro ps
  induction ps with
  | nil =>
    intro s found remaining totR out h
    rw [allocLoop] at h
    obtain rfl := Option.some.inj h
    exact ⟨rfl, fun hrem h0 hA => ⟨hrem, h0, hA⟩⟩
  | cons item rest ih =>
    intro s found remaining totR out h
    rw [allocLoop] at h
    cases hb1 : s.balances item.poolName with
    | none =>
      rw [hb1] at h
      exact ih s found remaining totR out h
    | some pool =>
      rw [hb1] at h
      obtain ⟨ca, hb2, h⟩ := Option.bind_eq_some.mp h
      by_cases g1 : item.ID = 0
      · rw [if_pos g1] at h
        exact ih s found remaining totR out h
      rw [if_neg g1] at h
      by_cases g2 : item.isActive = false
      · rw [if_pos g2] at h
        exact ih s found remaining totR out h
      rw [if_neg g2] at h
      by_cases g3 : ca < item.colaterlAmnt
      · rw [if_pos g3] at h
        exact ih s found remaining totR out h
      rw [if_neg g3] at h
      by_cases g4 : item.avlblTokens ≤ 0
      · rw [if_pos g4] at h
        exact ih s found remaining totR out h
      rw [if_neg g4] at h
      by_cases g5 : pool ≤ 0
      · rw [if_pos g5] at h
        exact ih s found remaining totR out h
      rw [if_neg g5] at h
      by_cases g6 : hotel ∈ item.arRestriction
      · rw [if_pos g6] at h
        exact ih s found remaining totR out h
      rw [if_neg g6] at h
      by_cases gmin : remaining ≤ item.avlblTokens
      · rw [if_pos gmin] at h
        obtain ⟨u, hu, h⟩ := Option.bind_eq_some.mp h
        obtain ⟨s1, hs1, h⟩ := Option.bind_eq_some.mp h
        have hreqs1 : s1.hotelFeeReqs = s.hotelFeeReqs := (transfer2Esc_tablesEq hs1).2.2.1
        by_cases gbrk : found + remaining ≥ A
        · rw [if_pos gbrk] at h
          obtain rfl := Option.some.inj h
          refine ⟨hreqs1, fun hrem h0 hA => ⟨rfl, ?_, ?_⟩⟩
          · show (0 : Int) ≤ found + remaining
            omega
          · show found + remaining ≤ A
            omega
        · rw [if_neg gbrk] at h
          have hres := ih _ _ _ _ _ h
          refine ⟨hres.1.trans hreqs1, fun hrem h0 hA => ?_⟩
          exact hres.2 (by omega) (by omega) (by omega)
      · rw [if_neg gmin] at h
        obtain ⟨u, hu, h⟩ := Option.bind_eq_some.mp h
        obtain ⟨s1, hs1, h⟩ := Option.bind_eq_some.mp h
        have hreqs1 : s1.hotelFeeReqs = s.hotelFeeReqs := (transfer2Esc_tablesEq hs1).2.2.1
        by_cases gbrk : found + item.avlblTokens ≥ A
        · rw [if_pos gbrk] at h
          obtain rfl := Option.some.inj h
          refine ⟨hreqs1, fun hrem h0 hA => ⟨rfl, ?_, ?_⟩⟩
          · show (0 : Int) ≤ found + item.avlblTokens
            omega
          · show found + item.avlblTokens ≤ A
            omega
        · rw [if_neg gbrk] at h
          have hres := ih _ _ _ _ _ h
          refine ⟨hres.1.trans hreqs1, fun hrem h0 hA => ?_⟩
          exact hres.2 (by omega) (by omega) (by omega)

theorem find?_tid_map (l : List HotelFeeReq) (tid : Nat) (f : HotelFeeReq → HotelFeeReq)
    (hfT : ∀ r, (f r).TID = r.TID) (hft : ∀ r, (f r).totalTokens = r.totalTokens) :
    ((l.map f).find? (fun r => r.TID == tid)).map (fun r => r.totalTokens)
      = (l.find? (fun r => r.TID == tid)).map (fun r => r.totalTokens) := by
  induction l with
  | nil => rfl
  | cons a l ih =>
    rw [List.map_cons]
    by_cases ha : a.TID = tid
    · rw [List.find?_cons_of_pos _ (by simp [hfT, ha]), List.find?_cons_of_pos _ (by simp [ha])]
      simp [hft]
    · rw [List.find?_cons_of_neg _ (by simp [hfT, ha]), List.find?_cons_of_neg _ (by simp [ha])]
      exact ih

theorem filter_tid_map_length (l : List HotelFeeReq) (tid : Nat) (f : HotelFeeReq → HotelFeeReq)
    (hfT : ∀ r, (f r).TID = r.TID) :
    ((l.map f).filter (fun r => r.TID == tid)).length
      = (l.filter (fun r => r.TID == tid)).length := by
  induction l with
  | nil => rfl
  | cons a l ih =>
    rw [List.map_cons, List.filter_cons, List.filter_cons]
    by_cases ha : a.TID = tid
    · rw [if_pos (by simp [hfT, ha] : ((f a).TID == tid) = true),
        if_pos (by simp [ha] : (a.TID == tid) = true)]
      simp [ih]
    · rw [if_neg (by simp [hfT, ha] : ¬ ((f a).TID == tid) = true),
        if_neg (by simp [ha] : ¬ (a.TID == tid) = true)]
      exact ih

theorem sndfee2escrw_reqs {env : Env} {s : Chain} {tid frm : Nat} {t : Chain}
    (h : sndfee2escrw env s tid frm = some t) :
    t.hotelFeeReqs = s.hotelFeeReqs.map (fun r : HotelFeeReq =>
      if r.TID = tid then { r with isFeePaid := 1 } else r) := by
  simp only [sndfee2escrw, Option.bind_eq_some, eosCheck_eq_some, exists_const] at h
  obtain ⟨req, hreq, b, hbeq, hle, s1, htr, e, hesc, hle2, hfin⟩ := h
  have e2 := (transfer2Esc_tablesEq hfin).2.2.1
  have e1 := (transfer_tablesEq htr).2.2.1
  refine e2.trans ?_
  show s1.hotelFeeReqs.map (fun r : HotelFeeReq =>
    if r.TID = tid then { r with isFeePaid := 1 } else r) = _
  rw [e1]

theorem servPoolLoop_reqs (env : Env) (tid : Nat) :
    ∀ (reqs : List PoolTokenReq) (s t : Chain), servPoolLoop env tid reqs s = some t →
      t.hotelFeeReqs = s.hotelFeeReqs := by
  intro reqs
  induction reqs with
  | nil =>
    intro s t h
    rw [servPoolLoop] at h
    obtain rfl := Option.some.inj h
    rfl
  | cons r rest ih =>
    intro s t h
    rw [servPoolLoop] at h
    by_cases hr : r.TID = tid
    · rw [if_pos hr] at h
      simp only [Option.bind_eq_some, eosCheck_eq_some, exists_const] at h
      obtain ⟨pi, hpi, eb, heb, hle, s1, h1, s2, h2, h3⟩ := h
      have q3 := ih _ _ h3
      have q2 := (transfer2Esc_tablesEq h2).2.2.1
      have q1 := (transfer2Esc_tablesEq h1).2.2.1
      exact (q3.trans q2).trans q1
    · rw [if_neg hr] at h
      exact ih s t h

theorem servprvd2htl_reqs {env : Env} {s : Chain} {tid : Nat} {t : Chain}
    (h : servprvd2htl env s tid = some t) :
    t.hotelFeeReqs = s.hotelFeeReqs.map (fun r : HotelFeeReq =>
      if r.TID = tid then { r with isServiceProvided := 1 } else r) := by
  simp only [servprvd2htl, Option.bind_eq_some, eosCheck_eq_some, exists_const] at h
  obtain ⟨req, hreq, mb, hmb, hle1, s1, h1, eb, heb, hle2, s3, h3, s4, hloop, hfin⟩ := h
  obtain rfl := Option.some.inj hfin
  have e4 : s4.hotelFeeReqs = s3.hotelFeeReqs := servPoolLoop_reqs env tid _ _ _ hloop
  have e3 : s3.hotelFeeReqs = s1.hotelFeeReqs.map (fun r : HotelFeeReq =>
      if r.TID = tid then { r with isServiceProvided := 1 } else r) :=
    (transfer2Esc_tablesEq h3).2.2.1
  have e1 : s1.hotelFeeReqs = s.hotelFeeReqs := (transfer2Esc_tablesEq h1).2.2.1
  have e0 : s4.hotelFeeReqs = s.hotelFeeReqs.map (fun r : HotelFeeReq =>
      if r.TID = tid then { r with isServiceProvided := 1 } else r) := by
    rw [e4, e3, e1]
  exact e0

theorem find?_map_feePaid (l : List HotelFeeReq) (tid : Nat) :
    ((l.map (fun r : HotelFeeReq => if r.TID = tid then { r with isFeePaid := 1 } else r)).find?
        (fun r => r.TID == tid)).map (fun r => r.totalTokens)
      = (l.find? (fun r => r.TID == tid)).map (fun r => r.totalTokens) :=
  find?_tid_map l tid _ (fun r => by split <;> rfl) (fun r => by split <;> rfl)

theorem find?_map_servProv (l : List HotelFeeReq) (tid : Nat) :
    ((l.map (fun r : HotelFeeReq =>
        if r.TID = tid then { r with isServiceProvided := 1 } else r)).find?
        (fun r => r.TID == tid)).map (fun r => r.totalTokens)
      = (l.find? (fun r => r.TID == tid)).map (fun r => r.totalTokens) :=
  find?_tid_map l tid _ (fun r => by split <;> rfl) (fun r => by split <;> rfl)

theorem filter_map_feePaid (l : List HotelFeeReq) (tid : Nat) :
    ((l.map (fun r : HotelFeeReq => if r.TID = tid then { r with isFeePaid := 1 } else r)).filter
        (fun r => r.TID == tid)).length
      = (l.filter (fun r => r.TID == tid)).length :=
  filter_tid_map_length l tid _ (fun r => by split <;> rfl)

theorem filter_map_servProv (l : List HotelFeeReq) (tid : Nat) :
    ((l.map (fun r : HotelFeeReq =>
        if r.TID = tid then { r with isServiceProvided := 1 } else r)).filter
        (fun r => r.TID == tid)).length
      = (l.filter (fun r => r.TID == tid)).length :=
  filter_tid_map_length l tid _ (fun r => by split <;> rfl)

/-- Claim C2: whenever `reqservice` completes successfully (in
particular, the main pool's balance covered the shortfall left by the
eligible-pool scan — otherwise the unconditional main-pool draw would
have aborted the call), the Service Request row it records carries
`totalTokens` equal to the requested amount: the engine never finishes
with `tokensFound < requested`. -/
theorem reqservice_totalTokens (env : Env) (s : Chain) (tid hotel : Nat) (amount : Int)
    (t : Chain) (hA : 0 ≤ amount) (h : reqservice env s tid hotel amount = some t) :
    (t.hotelFeeReqs.find? (fun r => r.TID == tid)).map (fun r => r.totalTokens)
      = some amount := by
  rw [reqservice] at h
  obtain ⟨u, hu, h⟩ := Option.bind_eq_some.mp h
  rw [eosCheck_eq_some] at hu
  have hfind0 : s.hotelFeeReqs.find? (fun r => r.TID == tid) = none := by
    cases hfq : s.hotelFeeReqs.find? (fun r => r.TID == tid) with
    | none => rfl
    | some r => rw [hfq] at hu; simp at hu
  obtain ⟨out, hout, h⟩ := Option.bind_eq_some.mp h
  have hspec := allocLoop_spec env tid hotel amount s.pools s 0 amount 0 out hout
  have hnum := hspec.2 (by omega) le_rfl hA
  obtain ⟨fin, hfin, h⟩ := Option.bind_eq_some.mp h
  obtain ⟨s6, hsnd, hserv⟩ := Option.bind_eq_some.mp h
  have hfin2 : fin.2.1 = amount ∧ fin.1.hotelFeeReqs = s.hotelFeeReqs := by
    by_cases hlt : out.2.1 < amount
    · rw [if_pos hlt] at hfin
      obtain ⟨ownr, hownr, hfin⟩ := Option.bind_eq_some.mp hfin
      obtain ⟨s2, hs2, hfin⟩ := Option.bind_eq_some.mp hfin
      obtain rfl := Option.some.inj hfin
      constructor
      · show out.2.1 + out.2.2.1 = amount
        have h1 := hnum.1
        omega
      · exact ((transfer2Esc_tablesEq hs2).2.2.1).trans hspec.1
    · rw [if_neg hlt] at hfin
      obtain rfl := Option.some.inj hfin
      constructor
      · show out.2.1 = amount
        have h2 := hnum.2.2
        omega
      · exact hspec.1
  have hrow := sndfee2escrw_reqs hsnd
  have ht := servprvd2htl_reqs hserv
  rw [ht, find?_map_servProv, hrow, find?_map_feePaid]
  show (((fin.1.hotelFeeReqs ++
      [(⟨tid, hotel, 0, 0, env.tNow, fin.2.1, feeTokensAmount amount, fin.2.2⟩ : HotelFeeReq)]).find?
        (fun r => r.TID == tid)).map (fun r => r.totalTokens)) = some amount
  have hrow0 : fin.1.hotelFeeReqs.find? (fun r => r.TID == tid) = none := by
    rw [hfin2.2]
    exact hfind0
  rw [List.find?_append, hrow0, Option.none_or,
    List.find?_cons_of_pos _ (by simp)]
  simp [hfin2.1]

/-- Claim C2 witness: on `chainW` the request TID 1 for 5.0000 tokens is
fully sourced from the main pool and the recorded `totalTokens` is
exactly the requested 50000 sub-units. -/
theorem reqservice_totalTokens_witness :
    ∃ t, reqservice envAll chainW 1 7 50000 = some t ∧
      (t.hotelFeeReqs.find? (fun r => r.TID == 1)).map (fun r => r.totalTokens)
        = some 50000 := by
  have hI : (reqservice envAll chainW 1 7 50000).isSome = true := by decide
  exact ⟨_, (Option.some_get hI).symm,
    reqservice_totalTokens envAll chainW 1 7 50000 _ (by decide) (Option.some_get hI).symm⟩

/-- Claim C5: a TID is consumed exactly once — `reqservice` aborts when
the TID is already present in the Service Request table, and a
successful call implies the TID was absent and leaves exactly one
Service Request row keyed by it. -/
theorem reqservice_tid_consumed_once :
    (∀ (env : Env) (s : Chain) (tid hotel : Nat) (amount : Int),
      (s.hotelFeeReqs.find? (fun r => r.TID == tid)).isSome = true →
      reqservice env s tid hotel amount = none) ∧
    (∀ (env : Env) (s : Chain) (tid hotel : Nat) (amount : Int) (t : Chain),
      reqservice env s tid hotel amount = some t →
      s.hotelFeeReqs.find? (fun r => r.TID == tid) = none ∧
      (t.hotelFeeReqs.filter (fun r => r.TID == tid)).length = 1) := by
  constructor
  · intro env s tid hotel amount hdup
    rw [reqservice, eosCheck_none (by simp [hdup])]
    rfl
  · intro env s tid hotel amount t h
    rw [reqservice] at h
    obtain ⟨u, hu, h⟩ := Option.bind_eq_some.mp h
    rw [eosCheck_eq_some] at hu
    have hfind0 : s.hotelFeeReqs.find? (fun r => r.TID == tid) = none := by
      cases hfq : s.hotelFeeReqs.find? (fun r => r.TID == tid) with
      | none => rfl
      | some r => rw [hfq] at hu; simp at hu
    obtain ⟨out, hout, h⟩ := Option.bind_eq_some.mp h
    have hreqs := (allocLoop_spec env tid hotel amount s.pools s 0 amount 0 out hout).1
    obtain ⟨fin, hfin, h⟩ := Option.bind_eq_some.mp h
    obtain ⟨s6, hsnd, hserv⟩ := Option.bind_eq_some.mp h
    have hfinreqs : fin.1.hotelFeeReqs = s.hotelFeeReqs := by
      by_cases hlt : out.2.1 < amount
      · rw [if_pos hlt] at hfin
        obtain ⟨ownr, hownr, hfin⟩ := Option.bind_eq_some.mp hfin
        obtain ⟨s2, hs2, hfin⟩ := Option.bind_eq_some.mp hfin
        obtain rfl := Option.some.inj hfin
        exact ((transfer2Esc_tablesEq hs2).2.2.1).trans hreqs
      · rw [if_neg hlt] at hfin
        obtain rfl := Option.some.inj hfin
        exact hreqs
    refine ⟨hfind0, ?_⟩
    have hrow := sndfee2escrw_reqs hsnd
    have ht := servprvd2htl_reqs hserv
    rw [ht, filter_map_servProv, hrow, filter_map_feePaid]
    show ((fin.1.hotelFeeReqs ++
        [(⟨tid, hotel, 0, 0, env.tNow, fin.2.1, feeTokensAmount amount, fin.2.2⟩ : HotelFeeReq)]).filter
          (fun r => r.TID == tid)).length = 1
    rw [List.filter_append]
    have hnil : fin.1.hotelFeeReqs.filter (fun r => r.TID == tid) = [] := by
      rw [hfinreqs]
      rw [List.filter_eq_nil_iff]
      intro a ha
      have := List.find?_eq_none.mp hfind0 a ha
      simpa using this
    rw [hnil]
    simp

/-- Claim C5 witness: a second request with the already-used TID 2 on
`chainDup` aborts, while a fresh TID 1 on `chainW` succeeds and leaves
exactly one row keyed by it. -/
theorem reqservice_tid_consumed_once_witness :
    reqservice envAll chainDup 2 7 50000 = none ∧
    ∃ t, reqservice envAll chainW 1 7 50000 = some t ∧
      chainW.hotelFeeReqs.find? (fun r => r.TID == 1) = none ∧
      (t.hotelFeeReqs.filter (fun r => r.TID == 1)).length = 1 := by
  constructor
  · exact reqservice_tid_consumed_once.1 envAll chainDup 2 7 50000 (by decide)
  · have hI : (reqservice envAll chainW 1 7 50000).isSome = true := by decide
    have h2 := reqservice_tid_consumed_once.2 envAll chainW 1 7 50000 _
      (Option.some_get hI).symm
    exact ⟨_, (Option.some_get hI).symm, h2.1, h2.2⟩
